import Mathlib

/-!
# Verification of the erbie consensus / state-database core

Shallow embedding, in Lean 4, of the parts of the erbie repository that the
frozen claims talk about:

* the coefficient ("credit weight") update operations of `stateObject`
  (`src/unnamed/part_002`),
* the istanbul-style header verification (`src/unnamed/part_005`),
* the validator pledge / cancel-pledge logic of `StateDB`
  (`src/core/msg_pool.go`),
* the reward distribution to third-party stakers (`src/core/msg_pool.go`),
* the journal / snapshot / revert machinery of `StateDB`
  (`src/core/msg_pool.go`, `src/unnamed/part_002`),
* `Finalise` / `IntermediateRoot` (`src/core/msg_pool.go`),
* the empty-block vote accumulation and watchdog trigger
  (`src/unnamed/part_012`, `src/miner/worker.go`).

Go `*big.Int` values are modelled as `Int`, `uint8`/`uint64` counters as `Nat`
(overflow never matters at the uses modelled here: coefficients are bounded by
70 by construction and nonces are only compared to zero), addresses and hashes
as `Nat`, and Go maps as total functions into `Option`.  Fallible operations
return `Except`/`Option`; a Go `panic` is modelled as `Option.none`.
-/

/-- Addresses (`common.Address`), abstracted to naturals. -/
abbrev Addr : Type := Nat

/-- The all-zeroes address `0x000...0`, used both as "no proxy" sentinel and
as the burn target in `NewCancelStakerPledge`. -/
def zeroAddress : Addr := 0

/-! ## Coefficient updates (`src/unnamed/part_002`, lines 825-850)

`Coefficient` is a `uint8` credit weight.  The three update operations below
are verbatim translations of `stateObject.AddCoefficient`,
`stateObject.SubCoefficient` and `stateObject.RemoveCoefficient`; each one is
expressed as a function from the prior coefficient value (and the argument
`coe`) to the new coefficient value that `SetCoefficient` installs. -/

/-- `VALIDATOR_COEFFICIENT = 70` (`src/unnamed/part_002`, line 35). -/
def VALIDATOR_COEFFICIENT : Nat := 70

/-- `stateObject.AddCoefficient`: the body ignores its argument and calls
`SetCoefficient(VALIDATOR_COEFFICIENT)`. -/
def addCoefficient (_prior _coe : Nat) : Nat := VALIDATOR_COEFFICIENT

/-- `stateObject.SubCoefficient`: if the prior coefficient is smaller than
`coe` the result is 1; otherwise `prior - coe` unless that is below 1, in
which case 1.  (`uint8` subtraction never underflows here because the guard
`s.Coefficient() < coe` is checked first, so `Nat` subtraction is exact.) -/
def subCoefficient (prior coe : Nat) : Nat :=
  if prior < coe then 1
  else if 1 ≤ prior - coe then prior - coe
  else 1

/-- `stateObject.RemoveCoefficient`: unconditionally sets the coefficient
to 0. -/
def removeCoefficient (_prior : Nat) : Nat := 0

/-! ## Header verification (`src/unnamed/part_005`, `Engine.verifyHeader`) -/

/-- A block header, restricted to the fields `Engine.verifyHeader` inspects.
`number` and `difficulty` are `*big.Int` in Go and hence nullable.  The
result of `types.ExtractIstanbulExtra` (an RLP decode of the extra-data
bytes) is abstracted to the boolean `extraOk`. -/
structure Header where
  number : Option Nat
  time : Nat
  coinbase : Addr
  nonce : Nat
  mixDigest : Nat
  difficulty : Option Int
  extraOk : Bool
deriving DecidableEq, Repr

/-- The sentinel errors `verifyHeader` can return, plus a marker for the
case where it falls through to `verifyCascadingFields`. -/
inductive HeaderCheck where
  | errUnknownBlock
  | errFutureBlock
  | errInvalidExtraDataFormat
  | errInvalidNonce
  | errInvalidMixDigest
  | errInvalidDifficulty
  | passedToCascading
deriving DecidableEq, Repr

/-- The three accepted nonce values (`EmptyBlockNonce`, `nonceAuthVote`,
`nonceDropVote`), abstracted to three distinct naturals. -/
def emptyBlockNonce : Nat := 0

/-- `nonceAuthVote = 0xffffffffffffffff`. -/
def nonceAuthVote : Nat := 1

/-- `nonceDropVote = 0x00...00` variant. -/
def nonceDropVote : Nat := 2

/-- `types.IstanbulDigest`, the fixed protocol mix-digest, abstracted. -/
def istanbulDigest : Nat := 0

/-- The fixed difficulty demanded of empty (zero-coinbase) blocks:
`big.NewInt(24)` in `verifyHeader`. -/
def emptyBlockDifficulty : Int := 24

/-- `Engine.verifyHeader` (`src/unnamed/part_005`, lines 167-214).
`defaultDifficulty` stands for `istanbulcommon.DefaultDifficulty` (declared in
a package outside the provided sources; the spec only says it is a fixed
constant, so it is passed as a parameter here), and `adjustedTimeNow` for
`time.Now() + AllowedFutureBlockTime` (wall-clock input). -/
def verifyHeader (defaultDifficulty : Int) (adjustedTimeNow : Nat)
    (h : Header) : HeaderCheck :=
  match h.number with
  | none => .errUnknownBlock
  | some n =>
    if adjustedTimeNow < h.time then .errFutureBlock
    else if h.extraOk = false then .errInvalidExtraDataFormat
    else if h.nonce ≠ emptyBlockNonce ∧ h.nonce ≠ nonceAuthVote ∧
        h.nonce ≠ nonceDropVote then .errInvalidNonce
    else if h.mixDigest ≠ istanbulDigest then .errInvalidMixDigest
    else if h.coinbase = zeroAddress ∧ 0 < n then
      match h.difficulty with
      | none => .errInvalidDifficulty
      | some d => if d ≠ emptyBlockDifficulty then .errInvalidDifficulty
                  else .passedToCascading
    else
      match h.difficulty with
      | none => .errInvalidDifficulty
      | some d => if d ≠ defaultDifficulty then .errInvalidDifficulty
                  else .passedToCascading

/-! ## Claim theorems: C5 and C6 -/

/-- C5: `AddCoefficient(x)` always resets the coefficient to the maximum 70,
regardless of `x` and of the prior value; `SubCoefficient(x)` yields
`prior − x` when that is at least 1 and 1 otherwise, never reaching 0; and
`RemoveCoefficient` is the only one of the three that yields 0. -/
theorem coefficient_clamp_spec (p x : Nat) :
    addCoefficient p x = 70 ∧
    subCoefficient p x = (if x < p then p - x else 1) ∧
    1 ≤ subCoefficient p x ∧
    removeCoefficient p = 0 := by
  refine ⟨rfl, ?_, ?_, rfl⟩
  · unfold subCoefficient
    rcases Nat.lt_trichotomy p x with h | h | h
    · simp [h, Nat.not_lt.mpr (Nat.le_of_lt h)]
    · subst h; simp
    · have h1 : ¬ p < x := Nat.not_lt.mpr (Nat.le_of_lt h)
      have h2 : 1 ≤ p - x := by omega
      simp [h1, h2, h]
  · unfold subCoefficient
    split
    · omega
    · split <;> omega

/-- C6: for a header that passes the checks preceding the difficulty check
(known number, not from the future, decodable extra-data, accepted nonce,
correct mix-digest), `verifyHeader` returns the invalid-difficulty error
exactly when the difficulty differs from the constant for the block's kind
(24 for zero-coinbase blocks of positive number, `DefaultDifficulty`
otherwise), and falls through to the cascading checks exactly when the
difficulty matches. -/
theorem verifyHeader_difficulty_spec (defaultDifficulty : Int)
    (adjustedTimeNow : Nat) (h : Header) (n : Nat)
    (hnum : h.number = some n)
    (htime : h.time ≤ adjustedTimeNow)
    (hextra : h.extraOk = true)
    (hnonce : h.nonce = emptyBlockNonce ∨ h.nonce = nonceAuthVote ∨
      h.nonce = nonceDropVote)
    (hmix : h.mixDigest = istanbulDigest) :
    (verifyHeader defaultDifficulty adjustedTimeNow h =
        .errInvalidDifficulty ↔
      h.difficulty ≠ some (if h.coinbase = zeroAddress ∧ 0 < n then
        emptyBlockDifficulty else defaultDifficulty)) ∧
    (verifyHeader defaultDifficulty adjustedTimeNow h =
        .passedToCascading ↔
      h.difficulty = some (if h.coinbase = zeroAddress ∧ 0 < n then
        emptyBlockDifficulty else defaultDifficulty)) := by
  have hnonce' : ¬ (h.nonce ≠ emptyBlockNonce ∧ h.nonce ≠ nonceAuthVote ∧
      h.nonce ≠ nonceDropVote) := by
    rcases hnonce with h1 | h1 | h1 <;> simp [h1]
  have htime' : ¬ adjustedTimeNow < h.time := Nat.not_lt.mpr htime
  unfold verifyHeader
  rw [hnum]
  simp only [htime', if_false, hextra, Bool.true_eq_false, hnonce',
    hmix, ne_eq, not_true_eq_false, if_false]
  by_cases hkind : h.coinbase = zeroAddress ∧ 0 < n
  · simp only [hkind, if_true]
    cases hd : h.difficulty with
    | none => simp
    | some d =>
      by_cases hdd : d = emptyBlockDifficulty
      · simp [hdd]
      · simp [hdd, Ne.symm hdd]
  · simp only [hkind, if_false]
    cases hd : h.difficulty with
    | none => simp
    | some d =>
      by_cases hdd : d = defaultDifficulty
      · simp [hdd]
      · simp [hdd, Ne.symm hdd]

/-- Witness for C6: a concrete empty-kind header (zero coinbase, number 1,
difficulty 24) passes the pre-difficulty checks and the difficulty check. -/
theorem verifyHeader_difficulty_spec_witness :
    ({ number := some 1, time := 5, coinbase := zeroAddress,
       nonce := emptyBlockNonce, mixDigest := istanbulDigest,
       difficulty := some 24, extraOk := true : Header }.time ≤ 10) ∧
    (verifyHeader 1 10
      { number := some 1, time := 5, coinbase := zeroAddress,
        nonce := emptyBlockNonce, mixDigest := istanbulDigest,
        difficulty := some 24, extraOk := true } = .passedToCascading) := by
  refine ⟨by decide, ?_⟩
  have h := verifyHeader_difficulty_spec 1 10
    { number := some 1, time := 5, coinbase := zeroAddress,
      nonce := emptyBlockNonce, mixDigest := istanbulDigest,
      difficulty := some 24, extraOk := true } 1
    rfl (by decide) rfl (Or.inl rfl) rfl
  exact h.2.mpr (by decide)

/-! ## Validator pledge cancellation (`StateDB.NewCancelStakerPledge`,
`src/core/msg_pool.go` lines 1775-1864)

The state fragment touched by `NewCancelStakerPledge` and
`RevocateAllStakers`: per-account balance, coefficient and pledged balance,
the per-account `StakerExtension` / `ValidatorExtension` delegation lists,
and the global validator registry stored at `ValidatorStorageAddress`.
`AddBalance`/`SubBalance`/`SubPledgedBalance` short-circuit on a zero
amount in Go; on the stored values that is the identity, so the model adds
unconditionally. -/

/-- One `types.StakerExtension` entry (`src/unnamed/part_008`). -/
structure StakerExtEntry where
  addr : Addr
  balance : Int
  blockNumber : Nat
deriving DecidableEq, Repr

/-- One `types.ValidatorExtension` entry (`src/unnamed/part_008`). -/
structure ValidatorExtEntry where
  addr : Addr
  balance : Int
  blockNumber : Nat
deriving DecidableEq, Repr

/-- One `types.Validator` registry entry (`src/unnamed/part_008`); the
`Weight` slice is never read by the operations modelled here. -/
structure ValidatorEntry where
  addr : Addr
  balance : Int
  proxy : Addr
deriving DecidableEq, Repr

/-- `ValidatorsExtensionList.GetBalance` (`src/core/evm.go`, line 1412):
balance of the first entry for `addr`, 0 if absent. -/
def vextGetBalance (l : List ValidatorExtEntry) (a : Addr) : Int :=
  match l.find? (fun e => e.addr == a) with
  | some e => e.balance
  | none => 0

/-- `ValidatorsExtensionList.GetAllBalance` (`src/core/evm.go`, line 1434). -/
def vextGetAllBalance (l : List ValidatorExtEntry) : Int :=
  l.foldl (fun acc e => acc + e.balance) 0

/-- `ValidatorsExtensionList.RemoveValidatorPledge` (`src/core/evm.go`,
line 1352): at the first entry for `addr`, subtract `b`; the entry is kept
only when its balance stays strictly positive, otherwise dropped. -/
def vextRemovePledge : List ValidatorExtEntry → Addr → Int → List ValidatorExtEntry
  | [], _, _ => []
  | e :: rest, a, b =>
    if e.addr = a then
      if b < e.balance then { e with balance := e.balance - b } :: rest
      else rest
    else e :: vextRemovePledge rest a b

/-- Modelled from the spec: the body of `StakersExtensionList.GetBalance` is
not among the provided sources; it is the first-match lookup analogous to
`ValidatorsExtensionList.GetBalance` above ("list of {address, balance,
block-number} pledges this account holds"). -/
def sextGetBalance (l : List StakerExtEntry) (a : Addr) : Int :=
  match l.find? (fun e => e.addr == a) with
  | some e => e.balance
  | none => 0

/-- Modelled from the spec: the body of
`StakersExtensionList.RemoveStakerPledge` is not among the provided sources;
per the spec it "removes a delegation record keyed by delegatee address",
analogous to `ValidatorsExtensionList.RemoveValidatorPledge` above. -/
def sextRemovePledge : List StakerExtEntry → Addr → Int → List StakerExtEntry
  | [], _, _ => []
  | e :: rest, a, b =>
    if e.addr = a then
      if b < e.balance then { e with balance := e.balance - b } :: rest
      else rest
    else e :: sextRemovePledge rest a b

/-- Modelled from the spec: the body of `types.ValidatorList.RemoveValidator`
is not among the provided sources; per the spec it "decrements balance; if
the result would be ≤ 0 for the implied full withdrawal, removes the entry
entirely". -/
def vlistRemoveValidator : List ValidatorEntry → Addr → Int → List ValidatorEntry
  | [], _, _ => []
  | v :: rest, a, b =>
    if v.addr = a then
      if b < v.balance then { v with balance := v.balance - b } :: rest
      else rest
    else v :: vlistRemoveValidator rest a b

/-- The state fragment acted on by `NewCancelStakerPledge`. -/
structure CState where
  balance : Addr → Int
  coefficient : Addr → Nat
  pledgedBalance : Addr → Int
  stakerExt : Addr → List StakerExtEntry
  validatorExt : Addr → List ValidatorExtEntry
  validators : List ValidatorEntry

/-- `stateObject.AddBalance` on the stored balance value. -/
def CState.addBal (s : CState) (a : Addr) (amt : Int) : CState :=
  { s with balance := Function.update s.balance a (s.balance a + amt) }

/-- `stateObject.SetCoefficient`. -/
def CState.setCoe (s : CState) (a : Addr) (c : Nat) : CState :=
  { s with coefficient := Function.update s.coefficient a c }

/-- `coebaseErb`: the punishment unit, `new(big.Int).SetString("100000000000000000", 10)`
(`src/core/msg_pool.go`, line 1794), i.e. 10^17 wei. -/
def coebaseErb : Int := 100000000000000000

/-- One iteration of the loop in `StateDB.RevocateAllStakers`
(`src/core/msg_pool.go`, lines 1847-1864): refund one third-party staker. -/
def revocateStep (a : Addr) (s : CState) (st : ValidatorExtEntry) : CState :=
  let sext := sextRemovePledge (s.stakerExt st.addr) a st.balance
  { s with
    stakerExt := Function.update s.stakerExt st.addr sext,
    balance := Function.update s.balance st.addr (s.balance st.addr + st.balance),
    pledgedBalance := Function.update s.pledgedBalance a (s.pledgedBalance a - st.balance),
    validators := vlistRemoveValidator s.validators a st.balance }

/-- `StateDB.RevocateAllStakers` (`src/core/msg_pool.go`, lines 1847-1864):
refund every delegation recorded in `a`'s `ValidatorExtension`, then clear
that extension. -/
def revocateAllStakers (s : CState) (a : Addr) : CState :=
  let s1 := (s.validatorExt a).foldl (revocateStep a) s
  { s1 with validatorExt := Function.update s1.validatorExt a [] }

/-- The four removals shared by all branches of `NewCancelStakerPledge`
(remove the pledge record on `fromAddr`, the delegation record and pledged
balance on `toAddr`, and the registry balance). -/
def cancelCommon (s : CState) (fromAddr toAddr : Addr) (amount : Int) : CState :=
  let sext := sextRemovePledge (s.stakerExt fromAddr) toAddr amount
  let s1 := { s with stakerExt := Function.update s.stakerExt fromAddr sext }
  let vext := vextRemovePledge (s1.validatorExt toAddr) fromAddr amount
  let s2 := { s1 with validatorExt := Function.update s1.validatorExt toAddr vext }
  let pb := s2.pledgedBalance toAddr - amount
  let s3 := { s2 with pledgedBalance := Function.update s2.pledgedBalance toAddr pb }
  { s3 with validators := vlistRemoveValidator s3.validators toAddr amount }

/-- `StateDB.NewCancelStakerPledge` (`src/core/msg_pool.go`, lines
1775-1845).  In the self-pledging branch (`from == address`) a punishment
of `(70 − coefficient) × coebaseErb` is forfeited when the coefficient is
non-zero, and on a full withdrawal (`pledgedAmount == amount`) all
remaining third-party delegations are forcibly revoked. -/
def newCancelStakerPledge (s : CState) (fromAddr toAddr : Addr)
    (amount : Int) : Except String CState :=
  if fromAddr = toAddr then
    let punishRaw : Int :=
      if s.coefficient toAddr ≠ 0 then
        (VALIDATOR_COEFFICIENT : Int) - (s.coefficient toAddr : Int)
      else 0
    if 0 < punishRaw then
      let punishErb := punishRaw * coebaseErb
      if amount < punishErb then
        .error "cancel pledge for insufficient punish amount"
      else
        let s1 := s.addBal fromAddr (amount - punishErb)
        let s2 := s1.addBal zeroAddress punishErb
        let s3 := s2.setCoe fromAddr VALIDATOR_COEFFICIENT
        let pledgedAmount := sextGetBalance (s3.stakerExt fromAddr) fromAddr
        let s4 := cancelCommon s3 fromAddr toAddr amount
        if pledgedAmount = amount then .ok (revocateAllStakers s4 toAddr)
        else .ok s4
    else
      let s3 := s.addBal fromAddr amount
      let pledgedAmount := sextGetBalance (s3.stakerExt fromAddr) fromAddr
      let s4 := cancelCommon s3 fromAddr toAddr amount
      if pledgedAmount = amount then .ok (revocateAllStakers s4 toAddr)
      else .ok s4
  else
    let s3 := s.addBal fromAddr amount
    .ok (cancelCommon s3 fromAddr toAddr amount)


/-- Entries surviving `vextRemovePledge` keep addresses drawn from the
original list: a forbidden address stays forbidden. -/
theorem vextRemovePledge_addr_preserved (l : List ValidatorExtEntry)
    (a z : Addr) (b : Int) (hz : ∀ e ∈ l, e.addr ≠ z) :
    ∀ e ∈ vextRemovePledge l a b, e.addr ≠ z := by
  induction l with
  | nil => intro e he; simp [vextRemovePledge] at he
  | cons e0 rest ih =>
    intro e he
    have hz0 := hz e0 (List.mem_cons_self _ _)
    have hzr : ∀ x ∈ rest, x.addr ≠ z := fun x hx => hz x (List.mem_cons_of_mem _ hx)
    unfold vextRemovePledge at he
    by_cases h0 : e0.addr = a
    · rw [if_pos h0] at he
      by_cases hb : b < e0.balance
      · rw [if_pos hb] at he
        rcases List.mem_cons.mp he with rfl | he
        · exact hz0
        · exact hzr e he
      · rw [if_neg hb] at he
        exact hzr e he
    · rw [if_neg h0] at he
      rcases List.mem_cons.mp he with rfl | he
      · exact hz0
      · exact ih hzr e he

/-- If every entry for address `a` carries a balance at most `b`, and there
is at most one such entry, then after `vextRemovePledge l a b` no entry for
`a` remains. -/
theorem vextRemovePledge_removes_self (l : List ValidatorExtEntry)
    (a : Addr) (b : Int)
    (hbal : ∀ e ∈ l, e.addr = a → ¬ b < e.balance)
    (hone : l.countP (fun e => e.addr == a) ≤ 1) :
    ∀ e ∈ vextRemovePledge l a b, e.addr ≠ a := by
  induction l with
  | nil => intro e he; simp [vextRemovePledge] at he
  | cons e0 rest ih =>
    intro e he
    unfold vextRemovePledge at he
    by_cases h0 : e0.addr = a
    · rw [if_pos h0] at he
      have hb : ¬ b < e0.balance := hbal e0 (List.mem_cons_self _ _) h0
      rw [if_neg hb] at he
      have hcount : rest.countP (fun e => e.addr == a) = 0 := by
        rw [List.countP_cons] at hone
        simp only [h0, beq_self_eq_true, if_true] at hone
        omega
      have := List.countP_eq_zero.mp hcount e he
      simpa using this
    · rw [if_neg h0] at he
      rcases List.mem_cons.mp he with rfl | he
      · exact h0
      · refine ih (fun x hx => hbal x (List.mem_cons_of_mem _ hx)) ?_ e he
        rw [List.countP_cons] at hone
        omega

/-- The revocation loop does not touch the balance of an address that is
not among the refunded stakers. -/
theorem revocate_foldl_balance (a x : Addr) (l : List ValidatorExtEntry) :
    ∀ s : CState, (∀ e ∈ l, e.addr ≠ x) →
      (l.foldl (revocateStep a) s).balance x = s.balance x := by
  induction l with
  | nil => intro s _; rfl
  | cons e0 rest ih =>
    intro s hx
    rw [List.foldl_cons, ih _ (fun e he => hx e (List.mem_cons_of_mem _ he))]
    have h0 : e0.addr ≠ x := hx e0 (List.mem_cons_self _ _)
    show Function.update s.balance e0.addr _ x = s.balance x
    rw [Function.update_noteq (Ne.symm h0)]

/-- The revocation loop never changes any coefficient. -/
theorem revocate_foldl_coefficient (a : Addr) (l : List ValidatorExtEntry) :
    ∀ s : CState, (l.foldl (revocateStep a) s).coefficient = s.coefficient := by
  induction l with
  | nil => intro s; rfl
  | cons e0 rest ih => intro s; rw [List.foldl_cons, ih]; rfl

/-- `cancelCommon` never touches balances. -/
theorem cancelCommon_balance (s : CState) (f t : Addr) (amt : Int) :
    (cancelCommon s f t amt).balance = s.balance := rfl

/-- `cancelCommon` never touches coefficients. -/
theorem cancelCommon_coefficient (s : CState) (f t : Addr) (amt : Int) :
    (cancelCommon s f t amt).coefficient = s.coefficient := rfl

/-- `cancelCommon` removes the withdrawer's record from the validator's
delegation list. -/
theorem cancelCommon_validatorExt_self (s : CState) (f t : Addr) (amt : Int) :
    (cancelCommon s f t amt).validatorExt t =
      vextRemovePledge (s.validatorExt t) f amt := by
  show Function.update s.validatorExt t (vextRemovePledge (s.validatorExt t) f amt) t = _
  rw [Function.update_same]

/-- `addBal` leaves the staker extension untouched. -/
theorem addBal_stakerExt (s : CState) (x : Addr) (amt : Int) :
    (s.addBal x amt).stakerExt = s.stakerExt := rfl

/-- `setCoe` leaves the staker extension untouched. -/
theorem setCoe_stakerExt (s : CState) (x : Addr) (k : Nat) :
    (s.setCoe x k).stakerExt = s.stakerExt := rfl

/-- Reading the balance just credited by `addBal`. -/
theorem addBal_balance_same (s : CState) (x : Addr) (amt : Int) :
    (s.addBal x amt).balance x = s.balance x + amt := by
  show Function.update s.balance x (s.balance x + amt) x = _
  rw [Function.update_same]

/-- `addBal` does not move other balances. -/
theorem addBal_balance_ne (s : CState) (x y : Addr) (amt : Int) (h : y ≠ x) :
    (s.addBal x amt).balance y = s.balance y := by
  show Function.update s.balance x (s.balance x + amt) y = _
  rw [Function.update_noteq h]

/-- Reading the coefficient just installed by `setCoe`. -/
theorem setCoe_coe_same (s : CState) (x : Addr) (k : Nat) :
    (s.setCoe x k).coefficient x = k := by
  show Function.update s.coefficient x k x = _
  rw [Function.update_same]

/-- `revocateAllStakers` preserves the balance of any address that is not
one of the refunded stakers. -/
theorem revocateAllStakers_balance (s : CState) (a x : Addr)
    (h : ∀ e ∈ s.validatorExt a, e.addr ≠ x) :
    (revocateAllStakers s a).balance x = s.balance x := by
  show ((s.validatorExt a).foldl (revocateStep a) s).balance x = _
  exact revocate_foldl_balance a x _ s h

/-- `revocateAllStakers` preserves all coefficients. -/
theorem revocateAllStakers_coefficient (s : CState) (a : Addr) :
    (revocateAllStakers s a).coefficient = s.coefficient := by
  show ((s.validatorExt a).foldl (revocateStep a) s).coefficient = _
  exact revocate_foldl_coefficient a _ s

/-- `revocateAllStakers` clears the validator's delegation list. -/
theorem revocateAllStakers_vext_self (s : CState) (a : Addr) :
    (revocateAllStakers s a).validatorExt a = [] := by
  show Function.update ((s.validatorExt a).foldl (revocateStep a) s).validatorExt a [] a = _
  rw [Function.update_same]

/-- C3 (amended): for a self-pledging validator with coefficient
`0 < c < 70` withdrawing its full stake `amount`, `NewCancelStakerPledge`
errors out when `amount` is below the punishment `(70 − c) × coebaseErb`
(10^17 wei units); otherwise it credits the withdrawer exactly `amount`
minus the punishment, credits the punishment to the zero (burn) address,
resets the coefficient to the maximum 70, and forcibly revokes every
remaining third-party delegation on the validator
(`RevocateAllStakers`). -/
theorem cancelStakerPledge_punishment (s : CState) (a : Addr) (amount : Int)
    (c : Nat) (hc : s.coefficient a = c) (hc0 : 0 < c) (hc70 : c < 70)
    (ha : a ≠ zeroAddress)
    (hfull : sextGetBalance (s.stakerExt a) a = amount)
    (hdel : ∀ e ∈ s.validatorExt a,
      e.addr ≠ zeroAddress ∧ (e.addr = a → e.balance = amount))
    (hone : (s.validatorExt a).countP (fun e => e.addr == a) ≤ 1) :
    (amount < (70 - (c : Int)) * coebaseErb →
      newCancelStakerPledge s a a amount =
        .error "cancel pledge for insufficient punish amount") ∧
    ((70 - (c : Int)) * coebaseErb ≤ amount →
      ∃ s', newCancelStakerPledge s a a amount = .ok s' ∧
        s'.balance a = s.balance a + (amount - (70 - (c : Int)) * coebaseErb) ∧
        s'.balance zeroAddress =
          s.balance zeroAddress + (70 - (c : Int)) * coebaseErb ∧
        s'.coefficient a = 70 ∧
        s'.validatorExt a = []) := by
  have hcne : c ≠ 0 := by omega
  have hvc : ((VALIDATOR_COEFFICIENT : Nat) : Int) = 70 := by
    norm_num [VALIDATOR_COEFFICIENT]
  have hpos : (0 : Int) < 70 - (c : Int) := by omega
  constructor
  · intro hlt
    unfold newCancelStakerPledge
    simp only [hc, hvc, if_pos (Eq.refl a), ne_eq, hcne, not_false_eq_true,
      if_true, if_pos hpos, if_pos hlt]
  · intro hge
    have hnlt : ¬ amount < (70 - (c : Int)) * coebaseErb := not_lt.mpr hge
    unfold newCancelStakerPledge
    simp only [hc, hvc, if_pos (Eq.refl a), ne_eq, hcne, not_false_eq_true,
      if_true, if_pos hpos, if_neg hnlt, addBal_stakerExt, setCoe_stakerExt,
      hfull, eq_self_iff_true]
    set S3 : CState := ((s.addBal a (amount - (70 - (c : Int)) * coebaseErb)).addBal
      zeroAddress ((70 - (c : Int)) * coebaseErb)).setCoe a VALIDATOR_COEFFICIENT with hS3
    set S4 : CState := cancelCommon S3 a a amount with hS4
    have hSvext : S4.validatorExt a = vextRemovePledge (s.validatorExt a) a amount := by
      rw [hS4, cancelCommon_validatorExt_self]; rfl
    have hne_a : ∀ e ∈ S4.validatorExt a, e.addr ≠ a := by
      rw [hSvext]
      refine vextRemovePledge_removes_self _ a amount ?_ hone
      intro e he hea
      rw [(hdel e he).2 hea]
      exact lt_irrefl amount
    have hne_z : ∀ e ∈ S4.validatorExt a, e.addr ≠ zeroAddress := by
      rw [hSvext]
      exact vextRemovePledge_addr_preserved _ a zeroAddress amount
        (fun e he => (hdel e he).1)
    refine ⟨revocateAllStakers S4 a, rfl, ?_, ?_, ?_, ?_⟩
    · rw [revocateAllStakers_balance S4 a a hne_a, hS4, cancelCommon_balance, hS3]
      show (((s.addBal a (amount - (70 - (c : Int)) * coebaseErb)).addBal
        zeroAddress ((70 - (c : Int)) * coebaseErb)).balance) a = _
      rw [addBal_balance_ne _ _ _ _ ha, addBal_balance_same]
    · rw [revocateAllStakers_balance S4 a zeroAddress hne_z, hS4,
        cancelCommon_balance, hS3]
      show (((s.addBal a (amount - (70 - (c : Int)) * coebaseErb)).addBal
        zeroAddress ((70 - (c : Int)) * coebaseErb)).balance) zeroAddress = _
      rw [addBal_balance_same, addBal_balance_ne _ _ _ _ (Ne.symm ha)]
    · rw [revocateAllStakers_coefficient, hS4, cancelCommon_coefficient, hS3,
        setCoe_coe_same]
      rfl
    · exact revocateAllStakers_vext_self S4 a

/-- A concrete state for the C3 counterexample: a self-pledging validator
at address 1 whose coefficient is 0 (it pledged but never served as a
validator), with a single self-delegation of 7·10^18 wei. -/
def cancelExampleState : CState :=
  { balance := fun _ => 0
  , coefficient := fun _ => 0
  , pledgedBalance := fun x => if x = 1 then 7000000000000000000 else 0
  , stakerExt := fun x => if x = 1 then [⟨1, 7000000000000000000, 0⟩] else []
  , validatorExt := fun x => if x = 1 then [⟨1, 7000000000000000000, 0⟩] else []
  , validators := [⟨1, 7000000000000000000, 0⟩] }

/-- C3 counterexample: the claim quantifies over every coefficient
`c < 70`, but at `c = 0` the code forfeits nothing (the zero-coefficient
guard treats the withdrawer as never having been a validator): the burn
address receives 0 rather than the claimed `(70 − 0) × 10^17 = 7·10^18`,
and the coefficient stays 0 instead of being reset to 70. -/
theorem cancelStakerPledge_zero_coefficient_counterexample :
    (newCancelStakerPledge cancelExampleState 1 1 7000000000000000000).map
        (fun t => (t.balance zeroAddress, t.coefficient 1)) =
      .ok (0, 0) ∧
    ((0 : Int) ≠ cancelExampleState.balance zeroAddress +
      (70 - (0 : Int)) * coebaseErb) ∧
    ((0 : Nat) ≠ 70) := by
  refine ⟨?_, by decide, by decide⟩
  rfl

/-- A concrete state for the C3 witness: a self-pledging validator at
address 1 with coefficient 69 and a full self-stake of exactly
`coebaseErb` wei. -/
def cancelWitnessState : CState :=
  { balance := fun _ => 0
  , coefficient := fun x => if x = 1 then 69 else 0
  , pledgedBalance := fun x => if x = 1 then 100000000000000000 else 0
  , stakerExt := fun x => if x = 1 then [⟨1, 100000000000000000, 0⟩] else []
  , validatorExt := fun x => if x = 1 then [⟨1, 100000000000000000, 0⟩] else []
  , validators := [⟨1, 100000000000000000, 0⟩] }

/-- Witness for C3 (amended): at coefficient 69 and a full withdrawal of
`coebaseErb`, the punishment `1 × coebaseErb` is burned, nothing is left
for the withdrawer, the coefficient resets to 70 and the delegation list
is cleared. -/
theorem cancelStakerPledge_punishment_witness :
    (0 : Nat) < 69 ∧
    ∃ s', newCancelStakerPledge cancelWitnessState 1 1 coebaseErb = .ok s' ∧
      s'.balance 1 = cancelWitnessState.balance 1 +
        (coebaseErb - (70 - ((69 : Nat) : Int)) * coebaseErb) ∧
      s'.balance zeroAddress = cancelWitnessState.balance zeroAddress +
        (70 - ((69 : Nat) : Int)) * coebaseErb ∧
      s'.coefficient 1 = 70 ∧
      s'.validatorExt 1 = [] :=
  ⟨by decide,
   (cancelStakerPledge_punishment cancelWitnessState 1 coebaseErb 69 (by decide)
      (by decide) (by decide) (by decide) (by decide) (by decide) (by decide)).2
     (by decide)⟩

/-! ## Validator registration (`StateDB.PledgeToken`, `src/core/msg_pool.go`
lines 1531-1561, and `stateObject.AddValidator`, `src/unnamed/part_002`
lines 966-975) -/

/-- Modelled from the spec: the body of `types.ValidatorList.AddValidator`
is not among the provided sources; per the spec it "rejects (returns false)
if `proxy` is already used by a different validator (anti-double-delegation
invariant); otherwise inserts or tops up the entry".  `none` models the
`false` return. -/
def validatorListAddValidator (vl : List ValidatorEntry) (a : Addr)
    (balance : Int) (proxy : Addr) : Option (List ValidatorEntry) :=
  if vl.any (fun v => (v.proxy != zeroAddress) && (v.addr != a) &&
      (v.proxy == proxy)) then none
  else if vl.any (fun v => v.addr == a) then
    some (vl.map (fun v =>
      if v.addr = a then { v with balance := v.balance + balance, proxy := proxy }
      else v))
  else some (vl ++ [⟨a, balance, proxy⟩])

/-- `stateObject.AddValidator` (`src/unnamed/part_002`, lines 966-975):
deep-copy the list, attempt the insert, and install the new list only when
the insert succeeded; on failure return `false` with the list unchanged. -/
def stateObjectAddValidator (vl : List ValidatorEntry) (a : Addr)
    (balance : Int) (proxy : Addr) : Bool × List ValidatorEntry :=
  match validatorListAddValidator vl a balance proxy with
  | none => (false, vl)
  | some l => (true, l)

/-- The state fragment acted on by `PledgeToken`. -/
structure PState where
  balance : Addr → Int
  pledgedBalance : Addr → Int
  pledgedBlockNumber : Addr → Nat
  validators : List ValidatorEntry

/-- `StateDB.PledgeToken` (`src/core/msg_pool.go`, lines 1531-1561): reject
with "cannot delegate repeatedly" when some registered validator other than
`address` already uses `proxy` as its (non-zero) proxy; otherwise register
(or top up) the validator and move `amount` from the account balance into
the pledged balance.  The pair returns the Go `error` alongside the
resulting state, so that "no mutation on failure" is expressible. -/
def pledgeToken (s : PState) (address : Addr) (amount : Int) (proxy : Addr)
    (blocknumber : Nat) : Option String × PState :=
  if s.validators.any (fun v => (v.proxy != zeroAddress) && (v.addr != address) &&
      (v.proxy == proxy)) then
    (some "cannot delegate repeatedly", s)
  else
    let vl := (stateObjectAddValidator s.validators address amount proxy).2
    ( none
    , { balance := Function.update s.balance address (s.balance address - amount)
      , pledgedBalance := Function.update s.pledgedBalance address
          (s.pledgedBalance address + amount)
      , pledgedBlockNumber := Function.update s.pledgedBlockNumber address blocknumber
      , validators := vl } )

/-- C4: attempting to register a validator with a proxy already used by a
different validator fails — `PledgeToken` returns the error and the
post-state equals the pre-state, and `AddValidator` returns `false` leaving
the validator list unchanged. -/
theorem pledgeToken_duplicate_proxy_rejected (s : PState)
    (address proxy : Addr) (amount : Int) (bn : Nat) (v : ValidatorEntry)
    (hv : v ∈ s.validators) (hp : v.proxy = proxy)
    (hpz : v.proxy ≠ zeroAddress) (hne : v.addr ≠ address) :
    pledgeToken s address amount proxy bn =
      (some "cannot delegate repeatedly", s) ∧
    stateObjectAddValidator s.validators address amount proxy =
      (false, s.validators) := by
  have hpz' : proxy ≠ zeroAddress := hp ▸ hpz
  have hany : s.validators.any (fun v => (v.proxy != zeroAddress) &&
      (v.addr != address) && (v.proxy == proxy)) = true := by
    rw [List.any_eq_true]
    exact ⟨v, hv, by simp [hp, hpz', hne]⟩
  constructor
  · unfold pledgeToken
    rw [if_pos hany]
  · unfold stateObjectAddValidator validatorListAddValidator
    rw [if_pos hany]

/-- Witness for C4: a registry holding validator 5 with proxy 7 rejects a
registration of validator 6 with the same proxy 7, leaving the state
untouched. -/
theorem pledgeToken_duplicate_proxy_rejected_witness :
    (⟨5, 100, 7⟩ : ValidatorEntry) ∈
      ({ balance := fun _ => 0, pledgedBalance := fun _ => 0,
         pledgedBlockNumber := fun _ => 0,
         validators := [⟨5, 100, 7⟩] } : PState).validators ∧
    pledgeToken
      { balance := fun _ => 0, pledgedBalance := fun _ => 0,
        pledgedBlockNumber := fun _ => 0, validators := [⟨5, 100, 7⟩] }
      6 42 7 9 =
      (some "cannot delegate repeatedly",
        { balance := fun _ => 0, pledgedBalance := fun _ => 0,
          pledgedBlockNumber := fun _ => 0, validators := [⟨5, 100, 7⟩] }) :=
  ⟨by decide,
   (pledgeToken_duplicate_proxy_rejected
     { balance := fun _ => 0, pledgedBalance := fun _ => 0,
       pledgedBlockNumber := fun _ => 0, validators := [⟨5, 100, 7⟩] }
     6 7 42 9 ⟨5, 100, 7⟩ (by decide) (by decide) (by decide) (by decide)).1⟩

/-! ## Reward distribution (`StateDB.DistributeRewardsToStakers`,
`src/core/msg_pool.go` lines 1437-1459)

`GetRewardAmount` (line 1387) scales `types.DREBlockReward` by a binary
floating-point decay factor (`math.Pow`); the resulting per-block reward is
abstracted below as the parameter `rewardAmount` — the conservation claim
holds for every value of it.  `big.Int.Div` is Euclidean division, modelled
by `Int.ediv`; Go panics on a zero divisor, which the claim theorem excludes
by hypothesis.  The operation reads and writes the same state fragment as
`NewCancelStakerPledge`, so it is modelled on `CState`. -/

/-- `types.PercentageValidatorReward = 7`
(`src/core/types/economic_params.go`, line 28). -/
def PercentageValidatorReward : Nat := 7

/-- The inner loop of `DistributeRewardsToStakers`: walk the validator's
delegation list, credit each third-party staker its pro-rata share, and
accumulate the actually distributed total (`actualSumStakerReward`). -/
def rewardLoop (sumStakerReward sumStakerBalance : Int) (owner : Addr) :
    List ValidatorExtEntry → (Addr → Int) × Int → (Addr → Int) × Int
  | [], st => st
  | e :: rest, (bal, acc) =>
    if e.addr ≠ owner then
      let stakerReward := (sumStakerReward * e.balance).ediv sumStakerBalance
      rewardLoop sumStakerReward sumStakerBalance owner rest
        (Function.update bal e.addr (bal e.addr + stakerReward), acc + stakerReward)
    else
      rewardLoop sumStakerReward sumStakerBalance owner rest (bal, acc)

/-- The per-validator body of `DistributeRewardsToStakers`: credit each
third-party delegator and debit the validator by the accumulated total. -/
def distributeRewardsToOne (sumStakerReward : Int) (s : CState)
    (owner : Addr) : CState :=
  let stakerList := s.validatorExt owner
  let sumStakerBalance :=
    vextGetAllBalance stakerList - vextGetBalance stakerList owner
  let res := rewardLoop sumStakerReward sumStakerBalance owner stakerList
    (s.balance, 0)
  { s with balance := Function.update res.1 owner (res.1 owner - res.2) }

/-- `StateDB.DistributeRewardsToStakers` (`src/core/msg_pool.go`, lines
1437-1459), with the float-derived block reward abstracted as
`rewardAmount`. -/
def distributeRewardsToStakers (rewardAmount : Int) (validators : List Addr)
    (s : CState) : CState :=
  let sumStakerReward :=
    (rewardAmount * ((100 : Int) - (PercentageValidatorReward : Int))).ediv 100
  validators.foldl (distributeRewardsToOne sumStakerReward) s

/-- Summing over a finite set after a pointwise update at a member. -/
theorem sum_update_mem (S : Finset Addr) (f : Addr → Int) (x : Addr)
    (hx : x ∈ S) (v : Int) :
    (S.sum (Function.update f x v)) = S.sum f + (v - f x) := by
  rw [Finset.sum_update_of_mem hx, Finset.sum_eq_sum_diff_singleton_add hx f]
  ring

/-- Unfolding equation for `rewardLoop` at a cons cell. -/
theorem rewardLoop_cons (sr sb : Int) (owner : Addr) (e : ValidatorExtEntry)
    (rest : List ValidatorExtEntry) (bal : Addr → Int) (acc : Int) :
    rewardLoop sr sb owner (e :: rest) (bal, acc) =
      if e.addr ≠ owner then
        rewardLoop sr sb owner rest
          (Function.update bal e.addr (bal e.addr + (sr * e.balance).ediv sb),
           acc + (sr * e.balance).ediv sb)
      else rewardLoop sr sb owner rest (bal, acc) := by
  rfl

/-- The reward loop increases the summed balance by exactly the amount it
accumulates. -/
theorem rewardLoop_sum (S : Finset Addr) (sr sb : Int) (owner : Addr)
    (l : List ValidatorExtEntry) (hmem : ∀ e ∈ l, e.addr ∈ S) :
    ∀ bal acc,
      S.sum (rewardLoop sr sb owner l (bal, acc)).1 =
        S.sum bal + ((rewardLoop sr sb owner l (bal, acc)).2 - acc) := by
  induction l with
  | nil => intro bal acc; simp [rewardLoop]
  | cons e rest ih =>
    intro bal acc
    have hrest : ∀ x ∈ rest, x.addr ∈ S :=
      fun x hx => hmem x (List.mem_cons_of_mem _ hx)
    by_cases he : e.addr ≠ owner
    · rw [rewardLoop_cons, if_pos he]
      rw [ih hrest]
      rw [sum_update_mem S bal e.addr (hmem e (List.mem_cons_self _ _))]
      ring
    · rw [rewardLoop_cons, if_neg he]
      exact ih hrest bal acc

/-- One validator's distribution conserves the summed balance. -/
theorem distributeRewardsToOne_sum (S : Finset Addr) (sr : Int) (s : CState)
    (owner : Addr) (howner : owner ∈ S)
    (hmem : ∀ e ∈ s.validatorExt owner, e.addr ∈ S) :
    S.sum (distributeRewardsToOne sr s owner).balance = S.sum s.balance := by
  unfold distributeRewardsToOne
  simp only
  set sb := vextGetAllBalance (s.validatorExt owner) -
    vextGetBalance (s.validatorExt owner) owner with hsb
  set res := rewardLoop sr sb owner (s.validatorExt owner) (s.balance, 0)
    with hres
  rw [sum_update_mem S res.1 owner howner]
  rw [hres, rewardLoop_sum S sr sb owner (s.validatorExt owner) hmem s.balance 0]
  ring

/-- `distributeRewardsToOne` reads but never writes delegation lists. -/
theorem distributeRewardsToOne_validatorExt (sr : Int) (s : CState)
    (owner : Addr) :
    (distributeRewardsToOne sr s owner).validatorExt = s.validatorExt := rfl

/-- C9: `DistributeRewardsToStakers` redistributes value without minting or
destroying any: over any finite address universe `S` containing the listed
validators and all their delegators, the sum of balances is unchanged —
each validator is debited exactly the total credited to its third-party
delegators.  The divisor-nonzero hypothesis excludes the inputs on which
the Go code panics in `big.Int.Div`. -/
theorem distributeRewards_conserves_balance (rewardAmount : Int)
    (validators : List Addr) (s : CState) (S : Finset Addr)
    (hv : ∀ o ∈ validators, o ∈ S)
    (hd : ∀ o ∈ validators, ∀ e ∈ s.validatorExt o, e.addr ∈ S)
    (_hnz : ∀ o ∈ validators, (∃ e ∈ s.validatorExt o, e.addr ≠ o) →
      vextGetAllBalance (s.validatorExt o) -
        vextGetBalance (s.validatorExt o) o ≠ 0) :
    S.sum (distributeRewardsToStakers rewardAmount validators s).balance =
      S.sum s.balance := by
  unfold distributeRewardsToStakers
  simp only
  set sr := (rewardAmount * ((100 : Int) - (PercentageValidatorReward : Int))).ediv 100
  induction validators generalizing s with
  | nil => rfl
  | cons o rest ih =>
    rw [List.foldl_cons]
    rw [ih (distributeRewardsToOne sr s o)
      (fun x hx => hv x (List.mem_cons_of_mem _ hx))
      (fun x hx => by
        rw [distributeRewardsToOne_validatorExt]
        exact hd x (List.mem_cons_of_mem _ hx))
      (fun x hx => by
        rw [distributeRewardsToOne_validatorExt]
        exact _hnz x (List.mem_cons_of_mem _ hx))]
    exact distributeRewardsToOne_sum S sr s o (hv o (List.mem_cons_self _ _))
      (hd o (List.mem_cons_self _ _))

/-- Witness for C9: validator 1 with a delegator 2 (50 wei of the 150-wei
total pledge) conserves the summed balance over the universe {1, 2, 3}. -/
theorem distributeRewards_conserves_balance_witness :
    ((1 : Addr) ∈ ({1, 2, 3} : Finset Addr)) ∧
    ({1, 2, 3} : Finset Addr).sum
        (distributeRewardsToStakers 1000 [1]
          { balance := fun x => if x = 1 then 500 else 0
          , coefficient := fun _ => 70
          , pledgedBalance := fun _ => 0
          , stakerExt := fun _ => []
          , validatorExt := fun x =>
              if x = 1 then [⟨2, 50, 0⟩, ⟨1, 100, 0⟩] else []
          , validators := [] }).balance =
      ({1, 2, 3} : Finset Addr).sum
        ({ balance := fun x => if x = 1 then 500 else 0
         , coefficient := fun _ => 70
         , pledgedBalance := fun _ => 0
         , stakerExt := fun _ => []
         , validatorExt := fun x =>
             if x = 1 then [⟨2, 50, 0⟩, ⟨1, 100, 0⟩] else []
         , validators := [] } : CState).balance :=
  ⟨by decide,
   distributeRewards_conserves_balance 1000 [1]
     { balance := fun x => if x = 1 then 500 else 0
     , coefficient := fun _ => 70
     , pledgedBalance := fun _ => 0
     , stakerExt := fun _ => []
     , validatorExt := fun x =>
         if x = 1 then [⟨2, 50, 0⟩, ⟨1, 100, 0⟩] else []
     , validators := [] }
     {1, 2, 3} (by decide) (by decide) (by decide)⟩

/-! ## Accounts, `Finalise` and `IntermediateRoot`
(`src/unnamed/part_002` lines 100-121, `src/core/msg_pool.go` lines 991-1098)

The persisted `Account` record and the live `stateObject` flags, restricted
to what `empty()`, `Finalise` and `IntermediateRoot` inspect.  Per-account
storage tries are not modelled: `IntermediateRoot` recomputes storage roots
only for pending objects, and the idempotence claim is about a second call
with nothing pending.  The account-trie hash is abstracted as a function
`hashFn` of the trie contents; the idempotence theorem holds for every such
function. -/

/-- `types.WormholesExtension` (`src/core/types/account_extension.go`). -/
structure WormExt where
  pledgedBalance : Int
  pledgedBlockNumber : Nat
  voteBlockNumber : Nat
  voteWeight : Int
  coefficient : Nat
  stakerExtension : List StakerExtEntry
  validatorExtension : List ValidatorExtEntry
  validatorProxy : Addr
deriving DecidableEq, Repr

/-- `types.AccountCSBT` (`src/unnamed/part_008`). -/
structure CsbtExt where
  owner : Addr
  creator : Addr
deriving DecidableEq, Repr

/-- `types.MintDeep` (`src/unnamed/part_008`). -/
structure MintDeep where
  userMint : Nat
  officialMint : Nat
deriving DecidableEq, Repr

/-- `types.AccountStaker` (`src/unnamed/part_008`). -/
structure StakerAcct where
  mint : MintDeep
  validators : List ValidatorEntry
  stakers : List StakerExtEntry
deriving DecidableEq, Repr

/-- The trie `Account` record (`src/unnamed/part_002`, lines 112-121).
Go nil-able pointers/slices are `Option`s; in particular `Extra : []byte`
distinguishes a nil slice (`none`) from a non-nil empty one (`some []`). -/
structure Account where
  nonce : Nat
  balance : Int
  root : Nat
  codeHash : Nat
  worm : Option WormExt
  csbt : Option CsbtExt
  staker : Option StakerAcct
  extra : Option (List Nat)
deriving DecidableEq, Repr

/-- `emptyCodeHash = keccak256(nil)`, abstracted to a constant. -/
def emptyCodeHash : Nat := 0

/-- `stateObject.empty` (`src/unnamed/part_002`, lines 100-109): zero
nonce, zero balance, empty code hash, and all of `Worm`, `Csbt`, `Staker`
and `Extra` nil. -/
def Account.emptyObject (a : Account) : Bool :=
  a.nonce == 0 && a.balance == 0 && a.codeHash == emptyCodeHash &&
  a.worm == none && a.csbt == none && a.staker == none && a.extra == none

/-- A live state object: its account data plus the `suicided`/`deleted`
cache flags (`src/unnamed/part_002`, lines 90-96). -/
structure FObj where
  data : Account
  suicided : Bool
  deleted : Bool
deriving DecidableEq, Repr

/-- The state-database fragment acted on by `Finalise` and
`IntermediateRoot`: the account trie, the live state objects,
`journal.dirties` and `stateObjectsPending`. -/
structure FinState where
  trie : Addr → Option Account
  objects : Addr → Option FObj
  dirties : List Addr
  pending : List Addr

/-- The body of the `Finalise` loop (`src/core/msg_pool.go`, lines
993-1027) for one dirty address: skip if no live object exists (the ripeMD
special case), otherwise mark it deleted when suicided or
empty-and-`deleteEmptyObjects`, and queue it as pending. -/
def finaliseStep (deleteEmpty : Bool) (s : FinState) (a : Addr) : FinState :=
  match s.objects a with
  | none => s
  | some obj =>
    let obj' := if obj.suicided || (deleteEmpty && obj.data.emptyObject) then
        { obj with deleted := true }
      else obj
    { s with objects := Function.update s.objects a (some obj'),
             pending := s.pending ++ [a] }

/-- `StateDB.Finalise` (`src/core/msg_pool.go`, lines 991-1032): process
every dirty address, then clear the journal (and with it the dirty set). -/
def finalise (deleteEmpty : Bool) (s : FinState) : FinState :=
  let s1 := s.dirties.foldl (finaliseStep deleteEmpty) s
  { s1 with dirties := [] }

/-- `StateDB.IntermediateRoot` (`src/core/msg_pool.go`, lines 1037-1098):
`Finalise`, then write every pending object into the trie (deleting the
ones marked deleted), clear the pending set, and return the trie hash. -/
def intermediateRoot (hashFn : (Addr → Option Account) → Nat)
    (deleteEmpty : Bool) (s : FinState) : Nat × FinState :=
  let s1 := finalise deleteEmpty s
  let trie2 := s1.pending.foldl (fun t a =>
    match s1.objects a with
    | some obj => if obj.deleted then Function.update t a none
                  else Function.update t a (some obj.data)
    | none => t) s1.trie
  (hashFn trie2, { s1 with trie := trie2, pending := [] })

/-- C8: calling `IntermediateRoot` twice in a row with the same
`deleteEmptyObjects` argument and no intervening mutation returns the same
root hash both times — the first call empties both the dirty and pending
sets, so the second call leaves the trie untouched. -/
theorem intermediateRoot_idempotent (hashFn : (Addr → Option Account) → Nat)
    (deleteEmpty : Bool) (s : FinState) :
    (intermediateRoot hashFn deleteEmpty
      (intermediateRoot hashFn deleteEmpty s).2).1 =
      (intermediateRoot hashFn deleteEmpty s).1 := rfl

/-- An object that is neither suicided nor empty survives the `Finalise`
loop untouched. -/
theorem finalise_foldl_objects (d : Bool) (a : Addr) (obj : FObj)
    (hsu : obj.suicided = false) (hne : obj.data.emptyObject = false) :
    ∀ (l : List Addr) (s : FinState), s.objects a = some obj →
      ((l.foldl (finaliseStep d) s).objects a = some obj) := by
  intro l
  induction l with
  | nil => intro s hs; exact hs
  | cons x rest ih =>
    intro s hs
    rw [List.foldl_cons]
    apply ih
    unfold finaliseStep
    by_cases hxa : x = a
    · subst hxa
      rw [hs]
      show (Function.update s.objects x
        (some (if obj.suicided || (d && obj.data.emptyObject) then
          { obj with deleted := true } else obj))) x = some obj
      rw [Function.update_same, hsu, hne]
      simp
    · cases hx : s.objects x with
      | none => exact hs
      | some o =>
        show (Function.update s.objects x _) a = some obj
        rw [Function.update_noteq (Ne.symm hxa)]
        exact hs

/-- C10: an account counts as `empty()` exactly when nonce, balance and
code hash are at their defaults and all four of `Worm`, `Csbt`, `Staker`
and `Extra` are nil; consequently an account whose only non-default field
is a non-nil `Extra` is not empty, and `Finalise(deleteEmptyObjects=true)`
does not mark it deleted. -/
theorem emptyObject_requires_nil_extra (s : FinState) (a : Addr) (obj : FObj)
    (bs : List Nat)
    (hobj : s.objects a = some obj)
    (_hn : obj.data.nonce = 0) (_hb : obj.data.balance = 0)
    (_hch : obj.data.codeHash = emptyCodeHash)
    (_hw : obj.data.worm = none) (_hc : obj.data.csbt = none)
    (_hst : obj.data.staker = none)
    (hex : obj.data.extra = some bs)
    (hsu : obj.suicided = false) :
    (∀ b : Account, b.emptyObject = true ↔
      (b.nonce = 0 ∧ b.balance = 0 ∧ b.codeHash = emptyCodeHash ∧
       b.worm = none ∧ b.csbt = none ∧ b.staker = none ∧ b.extra = none)) ∧
    obj.data.emptyObject = false ∧
    (finalise true s).objects a = some obj := by
  have hne : obj.data.emptyObject = false := by
    unfold Account.emptyObject
    rw [hex]
    simp
  refine ⟨?_, hne, ?_⟩
  · intro b
    unfold Account.emptyObject
    constructor
    · intro hb
      simp only [Bool.and_eq_true, beq_iff_eq] at hb
      exact ⟨hb.1.1.1.1.1.1, hb.1.1.1.1.1.2, hb.1.1.1.1.2, hb.1.1.1.2,
        hb.1.1.2, hb.1.2, hb.2⟩
    · intro ⟨h1, h2, h3, h4, h5, h6, h7⟩
      simp [h1, h2, h3, h4, h5, h6, h7]
  · show ((s.dirties.foldl (finaliseStep true) s).objects a = some obj)
    exact finalise_foldl_objects true a obj hsu hne s.dirties s hobj

/-- Witness for C10: a fresh account whose only non-default field is
`Extra = some [1]` is not empty and survives finalisation undeleted. -/
theorem emptyObject_requires_nil_extra_witness :
    (({ trie := fun _ => none
      , objects := fun x => if x = 3 then
          some { data := { nonce := 0, balance := 0, root := 0,
                           codeHash := emptyCodeHash, worm := none,
                           csbt := none, staker := none, extra := some [1] }
               , suicided := false, deleted := false }
        else none
      , dirties := [3], pending := [] } : FinState).objects 3 =
      some { data := { nonce := 0, balance := 0, root := 0,
                       codeHash := emptyCodeHash, worm := none,
                       csbt := none, staker := none, extra := some [1] }
           , suicided := false, deleted := false }) ∧
    (finalise true
      { trie := fun _ => none
      , objects := fun x => if x = 3 then
          some { data := { nonce := 0, balance := 0, root := 0,
                           codeHash := emptyCodeHash, worm := none,
                           csbt := none, staker := none, extra := some [1] }
               , suicided := false, deleted := false }
        else none
      , dirties := [3], pending := [] }).objects 3 =
      some { data := { nonce := 0, balance := 0, root := 0,
                       codeHash := emptyCodeHash, worm := none,
                       csbt := none, staker := none, extra := some [1] }
           , suicided := false, deleted := false } :=
  ⟨by decide,
   (emptyObject_requires_nil_extra
     { trie := fun _ => none
     , objects := fun x => if x = 3 then
         some { data := { nonce := 0, balance := 0, root := 0,
                          codeHash := emptyCodeHash, worm := none,
                          csbt := none, staker := none, extra := some [1] }
              , suicided := false, deleted := false }
       else none
     , dirties := [3], pending := [] }
     3
     { data := { nonce := 0, balance := 0, root := 0,
                 codeHash := emptyCodeHash, worm := none,
                 csbt := none, staker := none, extra := some [1] }
     , suicided := false, deleted := false }
     [1] (by decide) rfl rfl rfl rfl rfl rfl rfl rfl).2.2⟩

/-! ## Journal, snapshots and revert (`src/core/msg_pool.go` lines 75-78,
265-277, 959-981, 1108-1114; `src/unnamed/part_002` mutator methods)

The journal is an ordered list of typed change records; `Snapshot()`
records `(nextRevisionId, journal length)` and `RevertToSnapshot` undoes
entries in reverse order.  The change-record type declarations and their
`revert` bodies live in a file that is not among the provided sources; the
entries below carry exactly the `prev` data that the in-source appends
record (`balanceChange{prev}`, `nonceChange{prev}`,
`storageChange{prevalue}`, `suicideChange{prev, prevbalance}`,
`createObjectChange`, `refundChange{prev}`, `touchChange`), and
`JEntry.revert` is modelled from the spec: each record "revert[s] itself
given the state database" by reinstating the recorded prior value
(`createObjectChange` deletes the created object).

The account fragment here carries the journalled scalar fields (nonce,
balance, per-key storage, suicided flag) plus `worm`, the presence of the
`Worm *WormholesExtension` record (`false` = nil pointer).  Presence
matters for byte-identity: the record is RLP-tagged `rlp:"nil"`, so a nil
record and an installed empty record encode differently, and
`GetOrNewAccountStateObject` installs an empty record in place WITHOUT a
journal entry on any touched account whose record is nil
(`src/core/msg_pool.go`, lines 719-721).  The record's inner fields are
journalled by the capture-prior-value scheme and are omitted here; the
nil-to-zero normalisations of `PledgedBlockNumber`/`PledgedBalance`
(lines 722-727) are not byte-visible (a nil and a zero `big.Int` RLP-encode
identically) and are likewise omitted. -/

/-- The journalled fragment of a live account, plus the presence flag of
its Wormholes extension record. -/
structure JAccount where
  nonce : Nat
  balance : Int
  storage : Nat → Nat
  suicided : Bool
  worm : Bool

/-- The world of live accounts: `StateDB.stateObjects`. -/
abbrev World := Addr → Option JAccount

/-- A journal change record, carrying the prior values captured by the
in-source `journal.append` call sites. -/
inductive JEntry where
  | createObjectChange (a : Addr)
  | balanceChange (a : Addr) (prev : Int)
  | nonceChange (a : Addr) (prev : Nat)
  | storageChange (a : Addr) (key : Nat) (prevalue : Nat)
  | suicideChange (a : Addr) (prev : Bool) (prevbalance : Int)
  | refundChange (prev : Nat)
  | touchChange (a : Addr)

/-- Point-update of one live account, if present. -/
def updateAccount (w : World) (a : Addr) (f : JAccount → JAccount) : World :=
  fun x => if x = a then (w a).map f else w x

/-- The revertible core a journal entry acts on: the live accounts and the
refund counter. -/
structure JCore where
  world : World
  refund : Nat

/-- Modelled from the spec: the per-record `revert` bodies are not among
the provided sources; each record reinstates its recorded prior value, and
`createObjectChange` removes the created object. -/
def JEntry.revert : JEntry → JCore → JCore
  | .createObjectChange a, c =>
    { c with world := Function.update c.world a none }
  | .balanceChange a prev, c =>
    { c with world := updateAccount c.world a (fun o => { o with balance := prev }) }
  | .nonceChange a prev, c =>
    { c with world := updateAccount c.world a (fun o => { o with nonce := prev }) }
  | .storageChange a k pv, c =>
    let f := fun o : JAccount => { o with storage := Function.update o.storage k pv }
    { c with world := updateAccount c.world a f }
  | .suicideChange a prev pb, c =>
    let f := fun o : JAccount => { o with suicided := prev, balance := pb }
    { c with world := updateAccount c.world a f }
  | .refundChange prev, c => { c with refund := prev }
  | .touchChange _, c => c

/-- A snapshot revision: `(id, journal-length-at-snapshot)`
(`src/core/msg_pool.go`, lines 75-78). -/
structure Revision where
  id : Nat
  journalIndex : Nat
deriving DecidableEq, Repr

/-- The state-database fragment acted on by the journal machinery. -/
structure SDB where
  world : World
  refund : Nat
  journal : List JEntry
  validRevisions : List Revision
  nextRevisionId : Nat

/-- The mutation alphabet of the journal model: the `StateDB` setters whose
journalling appears in the provided sources (`SetBalance`, `SetNonce`,
`SetState`, `Suicide`).  `AddBalance`/`SubBalance` reduce to `SetBalance`
of the adjusted value. -/
inductive Mutation where
  | setBalance (a : Addr) (amount : Int)
  | setNonce (a : Addr) (n : Nat)
  | setState (a : Addr) (key value : Nat)
  | suicide (a : Addr)

/-- A freshly created state object: `newObject` with `Account{}` followed
by `GetOrNewAccountStateObject`'s `data.Worm = &types.WormholesExtension{}`
installation, so the extension record is present. -/
def defaultJAccount : JAccount :=
  { nonce := 0, balance := 0, storage := fun _ => 0, suicided := false,
    worm := true }

/-- `GetOrNewAccountStateObject` on the journalled fragment
(`src/core/msg_pool.go`, lines 707-726 and 759-780): return the live
object, or create a default one, journalling `createObjectChange`.  On an
EXISTING object whose Wormholes extension record is nil (as NFT objects
created by `GetOrNewNFTStateObject`, line 696, are), the source installs
an empty record in place with NO journal entry (lines 719-721); the world
returned here reflects that unjournaled write. -/
def getOrNew (w : World) (a : Addr) : JAccount × World × List JEntry :=
  match w a with
  | some o =>
    if o.worm = false then
      let o' := { o with worm := true }
      (o', Function.update w a (some o'), [])
    else (o, w, [])
  | none => (defaultJAccount, Function.update w a (some defaultJAccount),
      [.createObjectChange a])

/-- One `StateDB` mutation, journalling exactly what the source appends:
`SetBalance`/`SetNonce` journal the prior value unconditionally; `SetState`
journals only when the new value differs from the current one
(`src/unnamed/part_002`, line 305); `Suicide` is a no-op on a missing
object and otherwise journals the prior flag and balance, zeroing the
balance (`src/core/msg_pool.go`, lines 467-481). -/
def applyMutation (s : SDB) (m : Mutation) : SDB :=
  match m with
  | .setBalance a amount =>
    let g := getOrNew s.world a
    { s with world := Function.update g.2.1 a (some { g.1 with balance := amount }),
             journal := s.journal ++ g.2.2 ++ [.balanceChange a g.1.balance] }
  | .setNonce a n =>
    let g := getOrNew s.world a
    { s with world := Function.update g.2.1 a (some { g.1 with nonce := n }),
             journal := s.journal ++ g.2.2 ++ [.nonceChange a g.1.nonce] }
  | .setState a k v =>
    let g := getOrNew s.world a
    if g.1.storage k = v then
      { s with world := g.2.1, journal := s.journal ++ g.2.2 }
    else
      let o' := some { g.1 with storage := Function.update g.1.storage k v }
      { s with world := Function.update g.2.1 a o',
               journal := s.journal ++ g.2.2 ++
                 [.storageChange a k (g.1.storage k)] }
  | .suicide a =>
    match s.world a with
    | none => s
    | some o =>
      let o' := some { o with suicided := true, balance := (0 : Int) }
      { s with world := Function.update s.world a o',
               journal := s.journal ++
                 [.suicideChange a o.suicided o.balance] }

/-- `ms.foldl applyMutation`: a sequence of mutations. -/
def applyMutations (s : SDB) (ms : List Mutation) : SDB :=
  ms.foldl applyMutation s

/-- `StateDB.Snapshot` (`src/core/msg_pool.go`, lines 959-965): allocate
the next revision id and record the current journal length. -/
def snapshot (s : SDB) : Nat × SDB :=
  (s.nextRevisionId,
   { s with nextRevisionId := s.nextRevisionId + 1,
            validRevisions := s.validRevisions ++
              [⟨s.nextRevisionId, s.journal.length⟩] })

/-- Undo a list of entries, given newest-first. -/
def undoAll (c : JCore) (es : List JEntry) : JCore :=
  es.foldl (fun c e => e.revert c) c

/-- `journal.revert(s, snapshot)`: undo every entry appended after
`toLength`, in reverse order. -/
def journalRevert (c : JCore) (entries : List JEntry) (toLength : Nat) : JCore :=
  undoAll c ((entries.drop toLength).reverse)

/-- `StateDB.RevertToSnapshot` (`src/core/msg_pool.go`, lines 967-981):
binary-search (`sort.Search`, modelled as first-index search) for the
revision, abort the process (`none`) when it is absent, otherwise replay
the journal down to its recorded length and discard later revisions. -/
def revertToSnapshot (s : SDB) (revid : Nat) : Option SDB :=
  match s.validRevisions.findIdx? (fun r => decide (revid ≤ r.id)) with
  | none => none
  | some idx =>
    match s.validRevisions[idx]? with
    | none => none
    | some r =>
      if r.id ≠ revid then none
      else
        let c := journalRevert ⟨s.world, s.refund⟩ s.journal r.journalIndex
        some { world := c.world, refund := c.refund,
               journal := s.journal.take r.journalIndex,
               validRevisions := s.validRevisions.take idx,
               nextRevisionId := s.nextRevisionId }

/-- `StateDB.SubRefund` (`src/core/msg_pool.go`, lines 271-277): journal
the prior refund, then abort the process (`none`) when the subtracted gas
exceeds the refund counter. -/
def subRefund (s : SDB) (gas : Nat) : Option SDB :=
  let s1 := { s with journal := s.journal ++ [JEntry.refundChange s.refund] }
  if gas > s.refund then none
  else some { s1 with refund := s.refund - gas }

/-- Reverting a journalled field change on the very object it modified
restores the original world. -/
theorem updateAccount_cancel (w : World) (a : Addr) (o o' : JAccount)
    (f : JAccount → JAccount) (hw : w a = some o) (hf : f o' = o) :
    updateAccount (Function.update w a (some o')) a f = w := by
  funext x
  unfold updateAccount
  by_cases hx : x = a
  · subst hx
    rw [if_pos rfl, Function.update_same, Option.map_some', hf, hw]
  · rw [if_neg hx, Function.update_noteq hx]

/-- Reverting the field change and then the object creation restores a
world in which the object was absent. -/
theorem undo_created (w : World) (a : Addr) (o' : JAccount)
    (f : JAccount → JAccount) (hw : w a = none) (hf : f o' = defaultJAccount) :
    Function.update (updateAccount (Function.update
      (Function.update w a (some defaultJAccount)) a (some o')) a f) a none = w := by
  rw [updateAccount_cancel (Function.update w a (some defaultJAccount)) a
    defaultJAccount o' f (Function.update_same _ _ _) hf]
  rw [Function.update_idem, ← hw, Function.update_eq_self]

/-- Reverting the object creation alone restores a world in which the
object was absent. -/
theorem undo_created_only (w : World) (a : Addr) (hw : w a = none) :
    Function.update (Function.update w a (some defaultJAccount)) a none = w := by
  rw [Function.update_idem, ← hw, Function.update_eq_self]


/-- Every live account carries a (non-nil) Wormholes extension record.
Accounts touched through `GetOrNewAccountStateObject` always end up in
this shape; NFT objects created by `GetOrNewNFTStateObject` do not. -/
def WormOk (w : World) : Prop :=
  ∀ a o, w a = some o → o.worm = true

/-- Updating the world with an extension-carrying object preserves
`WormOk`. -/
theorem wormOk_update (w : World) (a : Addr) (o' : JAccount)
    (hw : WormOk w) (ho : o'.worm = true) :
    WormOk (Function.update w a (some o')) := by
  intro x ox hx
  by_cases hxa : x = a
  · subst hxa
    rw [Function.update_same] at hx
    cases hx
    exact ho
  · rw [Function.update_noteq hxa] at hx
    exact hw x ox hx

/-- `SetBalance` on an existing extension-carrying object. -/
theorem applyMutation_setBalance_some (s : SDB) (a : Addr) (amount : Int)
    (o : JAccount) (hw : s.world a = some o) (hwo : o.worm = true) :
    applyMutation s (.setBalance a amount) =
      { s with world := Function.update s.world a (some { o with balance := amount }),
               journal := s.journal ++ [.balanceChange a o.balance] } := by
  simp only [applyMutation]
  rw [show getOrNew s.world a = (o, s.world, []) from by simp [getOrNew, hw, hwo]]
  simp

/-- `SetBalance` on a missing object: create it first. -/
theorem applyMutation_setBalance_none (s : SDB) (a : Addr) (amount : Int)
    (hw : s.world a = none) :
    applyMutation s (.setBalance a amount) =
      { s with world := Function.update (Function.update s.world a
                 (some defaultJAccount)) a (some { defaultJAccount with balance := amount }),
               journal := s.journal ++ [.createObjectChange a, .balanceChange a 0] } := by
  simp only [applyMutation]
  rw [show getOrNew s.world a = (defaultJAccount,
      Function.update s.world a (some defaultJAccount), [.createObjectChange a])
    from by simp [getOrNew, hw]]
  simp [defaultJAccount]

/-- `SetNonce` on an existing extension-carrying object. -/
theorem applyMutation_setNonce_some (s : SDB) (a : Addr) (n : Nat)
    (o : JAccount) (hw : s.world a = some o) (hwo : o.worm = true) :
    applyMutation s (.setNonce a n) =
      { s with world := Function.update s.world a (some { o with nonce := n }),
               journal := s.journal ++ [.nonceChange a o.nonce] } := by
  simp only [applyMutation]
  rw [show getOrNew s.world a = (o, s.world, []) from by simp [getOrNew, hw, hwo]]
  simp

/-- `SetNonce` on a missing object: create it first. -/
theorem applyMutation_setNonce_none (s : SDB) (a : Addr) (n : Nat)
    (hw : s.world a = none) :
    applyMutation s (.setNonce a n) =
      { s with world := Function.update (Function.update s.world a
                 (some defaultJAccount)) a (some { defaultJAccount with nonce := n }),
               journal := s.journal ++ [.createObjectChange a, .nonceChange a 0] } := by
  simp only [applyMutation]
  rw [show getOrNew s.world a = (defaultJAccount,
      Function.update s.world a (some defaultJAccount), [.createObjectChange a])
    from by simp [getOrNew, hw]]
  simp [defaultJAccount]

/-- `SetState` on an existing extension-carrying object whose slot already
holds the value: no journal entry, no change. -/
theorem applyMutation_setState_some_eq (s : SDB) (a k v : Nat)
    (o : JAccount) (hw : s.world a = some o) (hwo : o.worm = true)
    (hkv : o.storage k = v) :
    applyMutation s (.setState a k v) = s := by
  simp only [applyMutation]
  rw [show getOrNew s.world a = (o, s.world, []) from by simp [getOrNew, hw, hwo]]
  simp [hkv]

/-- `SetState` on an existing extension-carrying object, changing the
slot. -/
theorem applyMutation_setState_some_ne (s : SDB) (a k v : Nat)
    (o : JAccount) (hw : s.world a = some o) (hwo : o.worm = true)
    (hkv : ¬ o.storage k = v) :
    applyMutation s (.setState a k v) =
      { s with world := Function.update s.world a
                 (some { o with storage := Function.update o.storage k v }),
               journal := s.journal ++ [.storageChange a k (o.storage k)] } := by
  simp only [applyMutation]
  rw [show getOrNew s.world a = (o, s.world, []) from by simp [getOrNew, hw, hwo]]
  simp [hkv]

/-- `SetState` on a missing object with value 0: the fresh object's slot
already holds 0, so only the creation is journalled. -/
theorem applyMutation_setState_none_eq (s : SDB) (a k : Nat)
    (hw : s.world a = none) :
    applyMutation s (.setState a k 0) =
      { s with world := Function.update s.world a (some defaultJAccount),
               journal := s.journal ++ [.createObjectChange a] } := by
  simp only [applyMutation]
  rw [show getOrNew s.world a = (defaultJAccount,
      Function.update s.world a (some defaultJAccount), [.createObjectChange a])
    from by simp [getOrNew, hw]]
  simp [defaultJAccount]

/-- `SetState` on a missing object with a non-zero value. -/
theorem applyMutation_setState_none_ne (s : SDB) (a k v : Nat)
    (hw : s.world a = none) (hv : ¬ v = 0) :
    applyMutation s (.setState a k v) =
      { s with world := Function.update (Function.update s.world a
                 (some defaultJAccount)) a (some { defaultJAccount with
                   storage := Function.update defaultJAccount.storage k v }),
               journal := s.journal ++ [.createObjectChange a, .storageChange a k 0] } := by
  simp only [applyMutation]
  rw [show getOrNew s.world a = (defaultJAccount,
      Function.update s.world a (some defaultJAccount), [.createObjectChange a])
    from by simp [getOrNew, hw]]
  have hne : ¬ defaultJAccount.storage k = v := fun h => hv ((show (0 : Nat) = v from h).symm)
  simp [hne, defaultJAccount]
  omega

/-- `Suicide` on a missing object: no-op. -/
theorem applyMutation_suicide_none (s : SDB) (a : Addr)
    (hw : s.world a = none) :
    applyMutation s (.suicide a) = s := by
  simp only [applyMutation]
  rw [hw]

/-- `Suicide` on an existing object: journal flag and balance, zero the
balance and mark suicided (`Suicide` reads via `getStateObject` and does
not normalise the extension record). -/
theorem applyMutation_suicide_some (s : SDB) (a : Addr)
    (o : JAccount) (hw : s.world a = some o) :
    applyMutation s (.suicide a) =
      { s with world := Function.update s.world a
                 (some { o with suicided := true, balance := 0 }),
               journal := s.journal ++ [.suicideChange a o.suicided o.balance] } := by
  simp only [applyMutation]
  rw [hw]

/-- On an extension-carrying world, every mutation appends entries to the
journal, leaves the revision bookkeeping and refund counter alone,
reverting its appended entries in reverse order restores the prior world,
and the world stays extension-carrying. -/
theorem applyMutation_undo (s : SDB) (m : Mutation) (hwk : WormOk s.world) :
    ∃ d : List JEntry,
      (applyMutation s m).journal = s.journal ++ d ∧
      (applyMutation s m).refund = s.refund ∧
      (applyMutation s m).validRevisions = s.validRevisions ∧
      (applyMutation s m).nextRevisionId = s.nextRevisionId ∧
      undoAll ⟨(applyMutation s m).world, (applyMutation s m).refund⟩ d.reverse =
        ⟨s.world, s.refund⟩ ∧
      WormOk (applyMutation s m).world := by
  cases m with
  | setBalance a amount =>
    cases hw : s.world a with
    | some o =>
      have hwo : o.worm = true := hwk a o hw
      rw [applyMutation_setBalance_some s a amount o hw hwo]
      refine ⟨[.balanceChange a o.balance], rfl, rfl, rfl, rfl, ?_, ?_⟩
      · show JEntry.revert (.balanceChange a o.balance)
          ⟨Function.update s.world a (some { o with balance := amount }), s.refund⟩ =
          (⟨s.world, s.refund⟩ : JCore)
        unfold JEntry.revert
        show JCore.mk _ _ = _
        congr 1
        exact updateAccount_cancel s.world a o _ _ hw rfl
      · exact wormOk_update s.world a _ hwk hwo
    | none =>
      rw [applyMutation_setBalance_none s a amount hw]
      refine ⟨[.createObjectChange a, .balanceChange a 0], rfl, rfl, rfl, rfl, ?_, ?_⟩
      · show JEntry.revert (.createObjectChange a)
          (JEntry.revert (.balanceChange a 0)
            ⟨Function.update (Function.update s.world a (some defaultJAccount)) a
              (some { defaultJAccount with balance := amount }), s.refund⟩) =
          (⟨s.world, s.refund⟩ : JCore)
        unfold JEntry.revert
        show JCore.mk _ _ = _
        congr 1
        exact undo_created s.world a _ _ hw rfl
      · exact wormOk_update _ a _ (wormOk_update s.world a _ hwk rfl) rfl
  | setNonce a n =>
    cases hw : s.world a with
    | some o =>
      have hwo : o.worm = true := hwk a o hw
      rw [applyMutation_setNonce_some s a n o hw hwo]
      refine ⟨[.nonceChange a o.nonce], rfl, rfl, rfl, rfl, ?_, ?_⟩
      · show JEntry.revert (.nonceChange a o.nonce)
          ⟨Function.update s.world a (some { o with nonce := n }), s.refund⟩ =
          (⟨s.world, s.refund⟩ : JCore)
        unfold JEntry.revert
        show JCore.mk _ _ = _
        congr 1
        exact updateAccount_cancel s.world a o _ _ hw rfl
      · exact wormOk_update s.world a _ hwk hwo
    | none =>
      rw [applyMutation_setNonce_none s a n hw]
      refine ⟨[.createObjectChange a, .nonceChange a 0], rfl, rfl, rfl, rfl, ?_, ?_⟩
      · show JEntry.revert (.createObjectChange a)
          (JEntry.revert (.nonceChange a 0)
            ⟨Function.update (Function.update s.world a (some defaultJAccount)) a
              (some { defaultJAccount with nonce := n }), s.refund⟩) =
          (⟨s.world, s.refund⟩ : JCore)
        unfold JEntry.revert
        show JCore.mk _ _ = _
        congr 1
        exact undo_created s.world a _ _ hw rfl
      · exact wormOk_update _ a _ (wormOk_update s.world a _ hwk rfl) rfl
  | setState a k v =>
    cases hw : s.world a with
    | some o =>
      have hwo : o.worm = true := hwk a o hw
      by_cases hkv : o.storage k = v
      · rw [applyMutation_setState_some_eq s a k v o hw hwo hkv]
        exact ⟨[], by simp, rfl, rfl, rfl, rfl, hwk⟩
      · rw [applyMutation_setState_some_ne s a k v o hw hwo hkv]
        refine ⟨[.storageChange a k (o.storage k)], rfl, rfl, rfl, rfl, ?_, ?_⟩
        · show JEntry.revert (.storageChange a k (o.storage k))
            ⟨Function.update s.world a
              (some { o with storage := Function.update o.storage k v }), s.refund⟩ =
            (⟨s.world, s.refund⟩ : JCore)
          unfold JEntry.revert
          show JCore.mk _ _ = _
          congr 1
          refine updateAccount_cancel s.world a o _ _ hw ?_
          have hst : Function.update (Function.update o.storage k v) k (o.storage k) =
              o.storage := by
            rw [Function.update_idem, Function.update_eq_self]
          show ({ o with storage := Function.update (Function.update o.storage k v) k (o.storage k) } : JAccount) = o
          rw [hst]
        · exact wormOk_update s.world a _ hwk hwo
    | none =>
      by_cases hv : v = 0
      · subst hv
        rw [applyMutation_setState_none_eq s a k hw]
        refine ⟨[.createObjectChange a], rfl, rfl, rfl, rfl, ?_, ?_⟩
        · show JEntry.revert (.createObjectChange a)
            ⟨Function.update s.world a (some defaultJAccount), s.refund⟩ =
            (⟨s.world, s.refund⟩ : JCore)
          unfold JEntry.revert
          show JCore.mk _ _ = _
          congr 1
          exact undo_created_only s.world a hw
        · exact wormOk_update s.world a _ hwk rfl
      · rw [applyMutation_setState_none_ne s a k v hw hv]
        refine ⟨[.createObjectChange a, .storageChange a k 0], rfl, rfl, rfl, rfl, ?_, ?_⟩
        · show JEntry.revert (.createObjectChange a)
            (JEntry.revert (.storageChange a k 0)
              ⟨Function.update (Function.update s.world a (some defaultJAccount)) a
                (some { defaultJAccount with
                  storage := Function.update defaultJAccount.storage k v }), s.refund⟩) =
            (⟨s.world, s.refund⟩ : JCore)
          unfold JEntry.revert
          show JCore.mk _ _ = _
          congr 1
          refine undo_created s.world a _ _ hw ?_
          have hst : Function.update (Function.update defaultJAccount.storage k v) k 0 =
              defaultJAccount.storage := by
            rw [Function.update_idem]
            exact Function.update_eq_self k defaultJAccount.storage
          show ({ defaultJAccount with storage := Function.update (Function.update defaultJAccount.storage k v) k 0 } : JAccount) = defaultJAccount
          rw [hst]
        · exact wormOk_update _ a _ (wormOk_update s.world a _ hwk rfl) rfl
  | suicide a =>
    cases hw : s.world a with
    | none =>
      rw [applyMutation_suicide_none s a hw]
      exact ⟨[], by simp, rfl, rfl, rfl, rfl, hwk⟩
    | some o =>
      rw [applyMutation_suicide_some s a o hw]
      refine ⟨[.suicideChange a o.suicided o.balance], rfl, rfl, rfl, rfl, ?_, ?_⟩
      · show JEntry.revert (.suicideChange a o.suicided o.balance)
          ⟨Function.update s.world a (some { o with suicided := true, balance := 0 }),
           s.refund⟩ = (⟨s.world, s.refund⟩ : JCore)
        unfold JEntry.revert
        show JCore.mk _ _ = _
        congr 1
        exact updateAccount_cancel s.world a o _ _ hw rfl
      · exact wormOk_update s.world a _ hwk (hwk a o hw)

/-- On an extension-carrying world, a sequence of mutations appends
entries to the journal, leaves the revision bookkeeping and refund counter
alone, reverting the appended entries in reverse order restores the prior
world, and the world stays extension-carrying. -/
theorem applyMutations_undo (ms : List Mutation) :
    ∀ s : SDB, WormOk s.world →
      ∃ d : List JEntry,
        (applyMutations s ms).journal = s.journal ++ d ∧
        (applyMutations s ms).refund = s.refund ∧
        (applyMutations s ms).validRevisions = s.validRevisions ∧
        (applyMutations s ms).nextRevisionId = s.nextRevisionId ∧
        undoAll ⟨(applyMutations s ms).world, (applyMutations s ms).refund⟩
          d.reverse = ⟨s.world, s.refund⟩ ∧
        WormOk (applyMutations s ms).world := by
  induction ms with
  | nil =>
    intro s hwk
    exact ⟨[], by simp [applyMutations], rfl, rfl, rfl, rfl, hwk⟩
  | cons m ms ih =>
    intro s hwk
    obtain ⟨d1, hj1, hr1, hv1, hn1, hu1, hw1⟩ := applyMutation_undo s m hwk
    obtain ⟨d2, hj2, hr2, hv2, hn2, hu2, hw2⟩ := ih (applyMutation s m) hw1
    have hfold : applyMutations s (m :: ms) =
        applyMutations (applyMutation s m) ms := rfl
    refine ⟨d1 ++ d2, ?_, ?_, ?_, ?_, ?_, ?_⟩
    · rw [hfold, hj2, hj1, List.append_assoc]
    · rw [hfold, hr2, hr1]
    · rw [hfold, hv2, hv1]
    · rw [hfold, hn2, hn1]
    · rw [hfold, List.reverse_append]
      have hsplit : undoAll ⟨(applyMutations (applyMutation s m) ms).world,
          (applyMutations (applyMutation s m) ms).refund⟩
          (d2.reverse ++ d1.reverse) =
          undoAll (undoAll ⟨(applyMutations (applyMutation s m) ms).world,
            (applyMutations (applyMutation s m) ms).refund⟩ d2.reverse)
            d1.reverse := by
        unfold undoAll
        rw [List.foldl_append]
      rw [hsplit, hu2, hu1]
    · rw [hfold]
      exact hw2

/-- First-index search over a list whose only match is the appended last
element. -/
theorem findIdx?_append_singleton {α : Type} (p : α → Bool) (l : List α)
    (x : α) (hl : ∀ y ∈ l, p y = false) (hx : p x = true) :
    (l ++ [x]).findIdx? p = some l.length := by
  induction l with
  | nil => simp [List.findIdx?_cons, hx]
  | cons a as ih =>
    have ha : p a = false := hl a (List.mem_cons_self _ _)
    have has : (as ++ [x]).findIdx? p = some as.length :=
      ih (fun y hy => hl y (List.mem_cons_of_mem _ hy))
    simp [List.cons_append, List.findIdx?_cons, ha, has]

/-- C1 (amended): for every state database whose live accounts all carry a
(non-nil) Wormholes extension record, if `Snapshot()` is taken (returning
`id`), any sequence of further mutations is applied, and
`RevertToSnapshot(id)` is then called, the revert succeeds and the
resulting state — accounts, storage, refund counter and journal — is
identical to the state immediately after the snapshot call.  Without the
extension proviso byte-identity can fail, because
`GetOrNewAccountStateObject` installs an empty extension record without a
journal entry (see `snapshot_revert_worm_counterexample`).  The
well-formedness hypothesis `hwf` is the source invariant that recorded
revision ids are strictly below `nextRevisionId`. -/
theorem snapshot_revert_journal_correct (s : SDB) (ms : List Mutation)
    (hwf : ∀ r ∈ s.validRevisions, r.id < s.nextRevisionId)
    (hworm : WormOk s.world) :
    ∃ s3, revertToSnapshot (applyMutations (snapshot s).2 ms) (snapshot s).1 =
        some s3 ∧
      s3.world = (snapshot s).2.world ∧
      s3.refund = (snapshot s).2.refund ∧
      s3.journal = (snapshot s).2.journal := by
  obtain ⟨d, hj, hr, hv, hn, hu, hwend⟩ :=
    applyMutations_undo ms (snapshot s).2 hworm
  set s2 := applyMutations (snapshot s).2 ms with hs2
  have hs1v : (snapshot s).2.validRevisions =
      s.validRevisions ++ [⟨s.nextRevisionId, s.journal.length⟩] := rfl
  have hs1j : (snapshot s).2.journal = s.journal := rfl
  have hfind : s2.validRevisions.findIdx?
      (fun r => decide (s.nextRevisionId ≤ r.id)) =
      some s.validRevisions.length := by
    rw [hv, hs1v]
    refine findIdx?_append_singleton _ _ _ ?_ ?_
    · intro y hy
      exact decide_eq_false (by have := hwf y hy; omega)
    · exact decide_eq_true (le_refl _)
  have hget : s2.validRevisions[s.validRevisions.length]? =
      some ⟨s.nextRevisionId, s.journal.length⟩ := by
    rw [hv, hs1v]
    exact List.getElem?_concat_length _ _
  have hdrop : s2.journal.drop s.journal.length = d := by
    rw [hj, hs1j]
    exact List.drop_left _ _
  have htake : s2.journal.take s.journal.length = s.journal := by
    rw [hj, hs1j]
    exact List.take_left _ _
  have hjr : journalRevert ⟨s2.world, s2.refund⟩ s2.journal s.journal.length =
      ⟨s.world, s.refund⟩ := by
    unfold journalRevert
    rw [hdrop]
    exact hu
  refine ⟨{ world := s.world, refund := s.refund, journal := s.journal,
            validRevisions := s.validRevisions,
            nextRevisionId := s2.nextRevisionId }, ?_, rfl, rfl, rfl⟩
  show revertToSnapshot s2 s.nextRevisionId = _
  have hvtake : s2.validRevisions.take s.validRevisions.length =
      s.validRevisions := by
    rw [hv, hs1v]
    exact List.take_left _ _
  unfold revertToSnapshot
  simp only [hfind, hget, ne_eq, not_true_eq_false, if_false, ite_false,
    Bool.false_eq_true, hjr, htake, hvtake]

/-- An NFT-style account at address 1: created with a nil Wormholes
extension record (`GetOrNewNFTStateObject`, `src/core/msg_pool.go`,
line 696), all scalar fields at their defaults. -/
def nilWormSDB : SDB :=
  { world := fun x => if x = 1 then
      some { nonce := 0, balance := 0, storage := fun _ => 0,
             suicided := false, worm := false }
    else none
  , refund := 0, journal := [], validRevisions := [], nextRevisionId := 0 }

/-- C1 counterexample: snapshot, then `SetBalance` on the nil-extension
account at address 1, then revert.  The revert succeeds and restores the
balance, but the account now carries the empty Wormholes extension record
that `GetOrNewAccountStateObject` installed without a journal entry
(`src/core/msg_pool.go`, lines 719-721) — an RLP-visible difference (the
record is `rlp:"nil"`-tagged), so the resulting account state is not
byte-identical to the post-snapshot state, refuting the claim as
stated. -/
theorem snapshot_revert_worm_counterexample :
    ((revertToSnapshot (applyMutations (snapshot nilWormSDB).2 [.setBalance 1 5])
        (snapshot nilWormSDB).1).map
      (fun s3 => (s3.world 1).map (fun o => o.worm)) = some (some true)) ∧
    (((snapshot nilWormSDB).2.world 1).map (fun o => o.worm) = some false) ∧
    ((some (some true) : Option (Option Bool)) ≠ some (some false)) := by
  refine ⟨?_, rfl, by decide⟩
  rfl

/-- A fresh, empty state database, used by the C1 witness. -/
def freshSDB : SDB :=
  { world := fun _ => none, refund := 0, journal := [],
    validRevisions := [], nextRevisionId := 0 }

/-- Witness for C1 (amended): from a fresh empty database (vacuously
extension-carrying), snapshot, set a balance, and revert; the world,
refund and journal return to their post-snapshot values. -/
theorem snapshot_revert_journal_correct_witness :
    (∀ r ∈ freshSDB.validRevisions, r.id < freshSDB.nextRevisionId) ∧
    WormOk freshSDB.world ∧
    ∃ s3, revertToSnapshot
        (applyMutations (snapshot freshSDB).2 [.setBalance 1 5])
        (snapshot freshSDB).1 = some s3 ∧
      s3.world = (snapshot freshSDB).2.world ∧
      s3.refund = (snapshot freshSDB).2.refund ∧
      s3.journal = (snapshot freshSDB).2.journal :=
  ⟨by simp [freshSDB],
   by intro a o h; exact absurd h (by simp [freshSDB]),
   snapshot_revert_journal_correct freshSDB [.setBalance 1 5]
     (by simp [freshSDB])
     (by intro a o h; exact absurd h (by simp [freshSDB]))⟩

/-- C7: `RevertToSnapshot` with an id that is not a currently valid
revision aborts the process (`panic`, modelled as `none`) rather than
returning an error, and `SubRefund` likewise aborts when the subtracted
gas exceeds the refund counter. -/
theorem invalid_revert_and_refund_underflow_abort (s : SDB) (revid gas : Nat)
    (hrev : ∀ r ∈ s.validRevisions, r.id ≠ revid)
    (hgas : s.refund < gas) :
    revertToSnapshot s revid = none ∧ subRefund s gas = none := by
  constructor
  · unfold revertToSnapshot
    split
    · rfl
    · split
      · rfl
      · rename_i r hg
        have hmem : r ∈ s.validRevisions := by
          obtain ⟨hi, rfl⟩ := List.getElem?_eq_some.mp hg
          exact List.getElem_mem hi
        rw [if_pos (hrev r hmem)]
  · simp only [subRefund]
    rw [if_pos hgas]

/-- The state database used by the C7 witness: one valid revision of id 0
and a refund counter of 1. -/
def panicSDB : SDB :=
  { world := fun _ => none, refund := 1, journal := [],
    validRevisions := [⟨0, 0⟩], nextRevisionId := 1 }

/-- Witness for C7: reverting to the never-issued id 5 panics, and
`SubRefund 3` with a refund counter of 1 panics. -/
theorem invalid_revert_and_refund_underflow_abort_witness :
    (∀ r ∈ panicSDB.validRevisions, r.id ≠ 5) ∧
    revertToSnapshot panicSDB 5 = none ∧ subRefund panicSDB 3 = none :=
  ⟨by decide,
   invalid_revert_and_refund_underflow_abort panicSDB 5 3
     (by decide) (by decide)⟩
/-! ## Empty-block vote accumulation and watchdog trigger
(`src/unnamed/part_012`, `Certify.GatherOtherPeerSignature`, lines 365-466;
`src/miner/worker.go`, `targetSizeWithWeight` line 1902,
`GetAverageCoefficient` line 1933, `emptyLoop` signatureResultCh case
line 586)

`GetValidatorCoefficient` reads per-account coefficients from state and is
modelled as a function `coe : Addr → Nat`.  `GetAverageCoefficient`
computes `⌊(Σ balᵢ·coeᵢ) / (Σ balᵢ·70) × 70 × 10⌋` with `big.Float`
arithmetic; it is modelled below with exact integer arithmetic, which
agrees with the float computation whenever the intermediate quotient is
exactly representable — as it is at the concrete inputs used in the
counterexample and witness. -/

/-- `types.DEFAULT_VALIDATOR_COEFFICIENT = 70`
(`src/core/types/economic_params.go`). -/
def DEFAULT_VALIDATOR_COEFFICIENT : Nat := 70

/-- Modelled from the spec: `ValidatorList.GetValidatorAddr` is not among
the provided sources; it resolves an address (a validator's own address or
its proxy) to the validator's address, returning the zero address when the
address is not a validator. -/
def getValidatorAddr (stakers : List ValidatorEntry) (x : Addr) : Addr :=
  match stakers.find? (fun v => v.addr == x || v.proxy == x) with
  | some v => v.addr
  | none => zeroAddress

/-- Modelled from the spec: `ValidatorList.StakeBalance` is not among the
provided sources; it returns the registered balance of the validator. -/
def stakeBalance (stakers : List ValidatorEntry) (x : Addr) : Int :=
  match stakers.find? (fun v => v.addr == x) with
  | some v => v.balance
  | none => 0

/-- The coefficient-weighted total stake
(the loop of `worker.targetSizeWithWeight`). -/
def totalWeightBalance (coe : Addr → Nat) (stakers : List ValidatorEntry) : Int :=
  stakers.foldl (fun total voter => total + voter.balance * (coe voter.addr : Int)) 0

/-- `worker.targetSizeWithWeight` (`src/miner/worker.go`, line 1902):
50% of the coefficient-weighted total stake, with `big.Int` (Euclidean)
division. -/
def targetSizeWithWeight (coe : Addr → Nat) (stakers : List ValidatorEntry) : Int :=
  (50 * totalWeightBalance coe stakers) / 100

/-- `worker.GetAverageCoefficient` (`src/miner/worker.go`, line 1933):
the average coefficient of the validator set, scaled by 10 ("need to
divide 10" at the use site).  Exact-integer model of the `big.Float`
computation `⌊total/maxTotal × 70 × 10⌋`. -/
def getAverageCoefficient (coe : Addr → Nat) (stakers : List ValidatorEntry) : Nat :=
  let total := totalWeightBalance coe stakers
  let maxTotal := stakers.foldl
    (fun t voter => t + voter.balance * (DEFAULT_VALIDATOR_COEFFICIENT : Int)) 0
  ((total * (DEFAULT_VALIDATOR_COEFFICIENT : Int) * 10) / maxTotal).toNat

/-- Per pending-height vote-collection record
(`proofState`: `onlineValidator`, `receiveValidatorsSum`,
`emptyBlockMessages`, `height`). -/
structure ProofState where
  onlineValidator : List Addr
  receiveValidatorsSum : Int
  emptyBlockMessages : List Nat
  height : Nat
deriving DecidableEq, Repr

/-- `Certify.GatherOtherPeerSignature` (`src/unnamed/part_012`, lines
365-466).  Early-outs: a vote not addressed to this node is ignored, a nil
staker list and a non-validator sender are errors, and a duplicate vote
for the same height is rejected.  Otherwise the vote's weight
`stakeBalance(validator) × averageCoefficient / 10` is accumulated into
the per-height proof state (created on first vote). -/
def gatherOtherPeerSignature (self : Addr) (stakers : Option (List ValidatorEntry))
    (coe : Addr → Nat) (pool : Nat → Option ProofState)
    (addr vote : Addr) (height : Nat) (encQues : Nat) :
    Except String (Nat → Option ProofState) :=
  if self ≠ vote then .ok pool
  else
    match stakers with
    | none => .error "stakes is nil"
    | some st =>
      let validator := getValidatorAddr st addr
      if validator = zeroAddress then .error "not a validator"
      else
        let averageCoefficient := getAverageCoefficient coe st
        let weightBalance :=
          (stakeBalance st validator * (averageCoefficient : Int)) / 10
        match pool height with
        | none =>
          let ps : ProofState :=
            { onlineValidator := [validator]
            , receiveValidatorsSum := 0 + weightBalance
            , emptyBlockMessages := [encQues]
            , height := height }
          .ok (Function.update pool height (some ps))
        | some cur =>
          if validator ∈ cur.onlineValidator then
            .error "GatherOtherPeerSignature: validator exist"
          else
            .ok (Function.update pool height (some
              { cur with
                  onlineValidator := cur.onlineValidator ++ [validator]
                , emptyBlockMessages := cur.emptyBlockMessages ++ [encQues]
                , receiveValidatorsSum := cur.receiveValidatorsSum + weightBalance }))

/-- The sealing condition of `worker.emptyLoop`'s `signatureResultCh` case
(`src/miner/worker.go`, line 589): empty-mode flag set, vote height equal
to the current head number plus one, and accumulated weight strictly above
the target. -/
def emptyLoopTrigger (isEmpty : Bool) (currentNumber rsHeight : Nat)
    (receiveSum targetWeightBalance : Int) : Bool :=
  isEmpty && (currentNumber + 1 == rsHeight) &&
    decide (targetWeightBalance < receiveSum)

/-- Concrete validator set for the C2 counterexample: two validators of
balance 1 each. -/
def exStakers : List ValidatorEntry := [⟨1, 1, 0⟩, ⟨2, 1, 0⟩]

/-- Concrete coefficients for the C2 counterexample: validator 1 has the
maximum coefficient 70, validator 2 has 35.  At these values the
`big.Float` computation in `GetAverageCoefficient` is exact
(105/140 = 0.75, ×70 = 52.5, ×10 = 525). -/
def exCoe : Addr → Nat := fun a => if a = 1 then 70 else if a = 2 then 35 else 0

/-- C2 counterexample: the claim says each arriving vote accumulates
`stakeBalance(voter) × coefficient(voter)`, but the code accumulates
`stakeBalance(voter) × averageCoefficient / 10` (the per-voter-coefficient
version is commented out in `GatherOtherPeerSignature`).  With validator 1
(balance 1, coefficient 70) voting in the set `exStakers`, the accumulated
weight is `⌊1 × 525 / 10⌋ = 52`, not `1 × 70 = 70`. -/
theorem vote_weight_average_counterexample :
    ((gatherOtherPeerSignature 1 (some exStakers) exCoe (fun _ => none) 1 1 9 0).map
      (fun pool => (pool 9).map (fun ps => ps.receiveValidatorsSum)) =
      .ok (some 52)) ∧
    (52 : Int) ≠ stakeBalance exStakers 1 * ((exCoe 1 : Nat) : Int) := by
  refine ⟨?_, by decide⟩
  rfl

/-- C2 (amended): each arriving non-duplicate vote from a registered
validator accumulates `stakeBalance(validator) × averageCoefficient / 10`
(where `averageCoefficient` is the tenfold-scaled average coefficient of
the whole validator set), and the watchdog seals exactly when the
empty-mode flag is set, the vote height equals the chain head height plus
one, and twice the accumulated weight strictly exceeds the total
coefficient-weighted stake (i.e. accumulated weight strictly exceeds the
50% target); otherwise sealing is never triggered. -/
theorem vote_quorum_trigger_spec (self addr : Addr) (st : List ValidatorEntry)
    (coe : Addr → Nat) (pool : Nat → Option ProofState) (height encQues : Nat)
    (cur : ProofState)
    (hval : ¬ getValidatorAddr st addr = zeroAddress)
    (hpool : pool height = some cur)
    (hdup : ¬ getValidatorAddr st addr ∈ cur.onlineValidator)
    (isEmpty : Bool) (currentNumber rsHeight : Nat) (receiveSum : Int) :
    (∃ pool', gatherOtherPeerSignature self (some st) coe pool addr self height
        encQues = .ok pool' ∧
      (pool' height).map (fun ps => ps.receiveValidatorsSum) =
        some (cur.receiveValidatorsSum +
          (stakeBalance st (getValidatorAddr st addr) *
            (getAverageCoefficient coe st : Int)) / 10)) ∧
    (emptyLoopTrigger isEmpty currentNumber rsHeight receiveSum
        (targetSizeWithWeight coe st) = true ↔
      (isEmpty = true ∧ currentNumber + 1 = rsHeight ∧
        totalWeightBalance coe st < 2 * receiveSum)) := by
  constructor
  · have hns : ¬ self ≠ self := by simp
    simp only [gatherOtherPeerSignature, hns, if_false, ite_false, if_neg hval,
      hpool, if_neg hdup]
    refine ⟨_, rfl, ?_⟩
    rw [Function.update_same]
    rfl
  · unfold emptyLoopTrigger targetSizeWithWeight
    simp only [Bool.and_eq_true, beq_iff_eq, decide_eq_true_eq]
    constructor
    · rintro ⟨⟨h1, h2⟩, h3⟩
      exact ⟨h1, h2, by omega⟩
    · rintro ⟨h1, h2, h3⟩
      exact ⟨⟨h1, h2⟩, by omega⟩

/-- An existing proof state for the C2 witness: validator 2 already voted
for height 9 with weight 52. -/
def exProofState : ProofState :=
  { onlineValidator := [2], receiveValidatorsSum := 52,
    emptyBlockMessages := [0], height := 9 }

/-- Witness for C2 (amended): validator 1's vote joins the existing proof
state for height 9, adding weight ⌊1·525/10⌋ = 52 for a total of 104. -/
theorem vote_quorum_trigger_spec_witness :
    (¬ getValidatorAddr exStakers 1 = zeroAddress) ∧
    ((∃ pool', gatherOtherPeerSignature 1 (some exStakers) exCoe
        (Function.update (fun _ => none) 9 (some exProofState)) 1 1 9 7 =
          .ok pool' ∧
      (pool' 9).map (fun ps => ps.receiveValidatorsSum) =
        some (exProofState.receiveValidatorsSum +
          (stakeBalance exStakers (getValidatorAddr exStakers 1) *
            (getAverageCoefficient exCoe exStakers : Int)) / 10)) ∧
    (emptyLoopTrigger true 8 9 104 (targetSizeWithWeight exCoe exStakers) = true ↔
      (true = true ∧ 8 + 1 = 9 ∧
        totalWeightBalance exCoe exStakers < 2 * 104))) :=
  ⟨by decide,
   vote_quorum_trigger_spec 1 1 exStakers exCoe
     (Function.update (fun _ => none) 9 (some exProofState)) 9 7 exProofState
     (by decide) (by simp) (by decide) true 8 9 104⟩
